import Mathlib

/-!
Verification development for the idlehands ingest-tail-broadcast engine.

The definitions below are a shallow embedding of the final watcher and
fan-out implementation (the `readNewEvents` file watcher and the
`broadcastEvent` / `flushBatch` WebSocket batcher) together with the event
model (`parseEvent`, `serializeEvent`) and the validator (`validateEvent`).

Modelling conventions:
* JS machine numbers are modelled as `Int` (wall-clock values and byte
  offsets stay far from 2^53, where `Int` and JS numbers agree; fractional
  seconds are elided since no modelled computation branches on them).
* Byte buffers are `List Nat` (byte values), newline is byte 10.
* The JSON layer of `parseEvent` is a parameter `parse` of the watcher
  model; the event model section embeds the post-parse checks over an
  explicit JSON value type.
* The single connected client of the fan-out is modelled explicitly; all
  connected clients receive identical batch streams in the source, so one
  client stands for an arbitrary one.
-/

set_option maxHeartbeats 1000000
set_option maxRecDepth 2048

namespace IdleHands

/-- The watcher source tag (`const SOURCE = 'file_watcher'`). -/
def SOURCE : String := "file_watcher"

/-- Canonical event id `"file_watcher:" ++ offset`, as produced by the
template literal in `readNewEvents`. -/
def mkEventId (off : Int) : String := SOURCE ++ ":" ++ toString off

/-- JS `parseInt(s, 10)`: optional sign, then the longest leading run of
decimal digits; `none` models `NaN` (no leading digit). -/
def parseIntDigits : List Char → Option Nat → Option Nat
  | [], acc => acc
  | c :: cs, acc =>
    if c.isDigit then
      parseIntDigits cs (some ((acc.getD 0) * 10 + (c.toNat - 48)))
    else acc

/-- JS `parseInt(s, 10)` on the strings this program feeds it. -/
def parseIntJS (s : String) : Option Int :=
  match s.toList with
  | '-' :: rest => (parseIntDigits rest none).map (fun n => -(n : Int))
  | '+' :: rest => (parseIntDigits rest none).map (fun n => (n : Int))
  | l => (parseIntDigits l none).map (fun n => (n : Int))

/-- Split a character list at every occurrence of `sep` (JS
`String.prototype.split` semantics: no empty-segment collapsing). -/
def splitOnCharAux (sep : Char) (cur : List Char) : List Char → List (List Char)
  | [] => [cur.reverse]
  | c :: cs =>
    if c = sep then cur.reverse :: splitOnCharAux sep [] cs
    else splitOnCharAux sep (c :: cur) cs

/-- JS `id.split(':')`. -/
def splitColon (s : String) : List String :=
  (splitOnCharAux ':' [] s.toList).map String.mk

/-- Result of a JS three-way comparison, as used by `compareEventIds`. -/
inductive CmpResult where
  | lt
  | eq
  | gt
deriving Repr, DecidableEq

/-- Code-unit string comparison, standing in for `localeCompare` (all ids in
this program are ASCII, where the default locale agrees with code-unit
order). Only the numeric branch of `compareEventIds` is relied on by any
theorem below. -/
def localeCompareModel (a b : String) : CmpResult :=
  if a = b then .eq else if a < b then .lt else .gt

/-- `compareEventIds` from the WebSocket module: split each id on `:`; if
both have exactly two parts with numeric second components, compare the
numeric offsets, otherwise fall back to string comparison. The source
returns `offset1 - offset2`; we keep the sign information as `CmpResult`. -/
def compareEventIds (id1 id2 : String) : CmpResult :=
  let parts1 := splitColon id1
  let parts2 := splitColon id2
  if parts1.length ≠ 2 ∨ parts2.length ≠ 2 then
    localeCompareModel id1 id2
  else
    match parseIntJS (parts1.getD 1 ""), parseIntJS (parts2.getD 1 "") with
    | some o1, some o2 =>
        if o1 < o2 then .lt else if o1 = o2 then .eq else .gt
    | _, _ => localeCompareModel id1 id2

/-- The numeric offset of a canonical id: defined exactly when the id has
two `:`-separated parts whose second part parses as a number (the condition
under which `compareEventIds` compares numerically). -/
def offsetOf (id : String) : Option Int :=
  match splitColon id with
  | [_, p] => parseIntJS p
  | _ => none

/-! ### Event objects

One flat structure stands for the tagged union `Event` together with the
extra fields of `GapEvent` (the source casts `GapEvent` to `Event` when it
enqueues a gap marker) and the `ingest_path` debug tag. Fields a variant
does not carry are `none` / `[]`. -/

structure WEvent where
  v : Int := 1
  ts : Int := 0
  type : String := "unknown"
  session_id : String := "s"
  id : Option String := none
  payload_keys : List String := []
  reason : Option String := none
  gap_type : Option String := none
  dropped_count : Option Int := none
  from_event_id : Option String := none
  to_offset : Option Int := none
  ingest_path : Option String := none
deriving Repr, DecidableEq

/-! ### Fan-out queue (`websocket.ts`: `broadcastEvent` / `flushBatch`)

State owned by the WebSocket module. `recent` models the insertion-ordered
`Map<string, {timestamp}>` (the stored `ingest_path` tag is never read for
control flow and is elided). A single always-open client whose sends
succeed models an arbitrary connected client; `delivered` is the ghost
trace of batches sent to it, and `lastBatchId` its `lastBatchIdPerClient`
entry (initialised to `""` on connect). `batchTimer` and
`immediateScheduled` model the two scheduling flags. -/

def BATCH_WINDOW_MS : Int := 50
def LEADING_EDGE : Bool := true
def MAX_BATCH_SIZE : Nat := 100
def MAX_QUEUE_SIZE : Nat := 1000
def DUPLICATE_WINDOW_MS : Int := 5000

structure FanState where
  queue : List WEvent := []
  recent : List (String × Int) := []
  lastDeliveredEventId : Option String := none
  batchTimer : Bool := false
  immediateScheduled : Bool := false
  lastBatchId : String := ""
  delivered : List (List WEvent) := []
  droppedEventsTotal : Nat := 0
  droppedEventsHistory : List Int := []
  batchesSent : Nat := 0
  eventsSent : Nat := 0
deriving Repr, DecidableEq

def fanInit : FanState := {}

/-- `recentEventIds.get(id)`. -/
def lookupRecent (m : List (String × Int)) (id : String) : Option Int :=
  match m.find? (fun p => p.1 = id) with
  | some p => some p.2
  | none => none

/-- `recentEventIds.set(id, ts)`: update in place when the key exists,
append otherwise (JS Map keeps insertion order). -/
def setRecent (m : List (String × Int)) (id : String) (ts : Int) :
    List (String × Int) :=
  match m with
  | [] => [(id, ts)]
  | p :: rest =>
    if p.1 = id then (id, ts) :: rest else p :: setRecent rest id ts

/-- The cleanup loop: delete every entry with `now - timestamp > WINDOW`. -/
def cleanupRecent (now : Int) (m : List (String × Int)) :
    List (String × Int) :=
  m.filter (fun p => ¬ now - p.2 > DUPLICATE_WINDOW_MS)

/-- The batch a `flushBatch` pass takes from the head of the queue:
`queue.splice(0, Math.min(queue.length, MAX_BATCH_SIZE))`. -/
def batchOf (s : FanState) : List WEvent :=
  s.queue.take (min s.queue.length MAX_BATCH_SIZE)

/-- The body of one `flushBatch` pass, up to (not including) the tail that
reschedules or re-runs: splice the batch off, clear the scheduling flags,
send to the (open, succeeding) client, record per-client and global
watermarks and counters. -/
def flushOnce (s : FanState) : FanState :=
  let batch := batchOf s
  { s with
    queue := s.queue.drop (min s.queue.length MAX_BATCH_SIZE)
    batchTimer := false
    immediateScheduled := false
    lastBatchId :=
      match batch.getLast? with
      | some e => match e.id with
        | some i => i
        | none => s.lastBatchId
      | none => s.lastBatchId
    delivered := s.delivered ++ [batch]
    batchesSent := s.batchesSent + 1
    eventsSent := s.eventsSent + batch.length
    lastDeliveredEventId :=
      match batch.getLast? with
      | some e => match e.id with
        | some i => some i
        | none => s.lastDeliveredEventId
      | none => s.lastDeliveredEventId }

/-- `flushBatch`, fuel-bounded to make the tail-recursive `flushBatch()`
call structural (`fuel = queue.length` always suffices: each pass removes
at least one event). -/
def flushBatchAux : Nat → FanState → FanState
  | 0, s => s
  | fuel + 1, s =>
    if s.queue = [] then s
    else
      let s' := flushOnce s
      if s'.queue = [] then s'
      else if MAX_BATCH_SIZE ≤ s'.queue.length then flushBatchAux fuel s'
      else { s' with batchTimer := true }

/-- `flushBatch`. -/
def flushBatch (s : FanState) : FanState := flushBatchAux s.queue.length s

/-- The gap marker built in the backpressure branch of `broadcastEvent`. -/
def mkGapEvent (now : Int) (e : WEvent) (lastDeliveredEventId : Option String)
    (droppedCount : Nat) (droppedEvents : List WEvent) : WEvent :=
  { v := 1
    ts := now / 1000
    type := "unknown"
    session_id := if e.session_id = "" then "system" else e.session_id
    id := e.id.map (fun i => i ++ ":gap")
    payload_keys := []
    reason := some "Events dropped due to backpressure"
    gap_type := some "dropped"
    dropped_count := some (droppedCount : Int)
    from_event_id := some (lastDeliveredEventId.getD "unknown")
    to_offset :=
      match droppedEvents.getLast? with
      | some de => match de.id with
        | some di =>
          let p := (splitColon di).getD 1 ""
          parseIntJS (if p = "" then "0" else p)
        | none => some 0
      | none => some 0 }

/-- `broadcastEvent(event)` at wall-clock time `now` (ms). The WebSocket
server is assumed set up (`wss` non-null). The synchronous
`flushBatch()` calls of the max-batch branches are inlined, as in the
source. -/
def isDuplicate (now : Int) (e : WEvent) (s : FanState) : Bool :=
  match e.id with
  | none => false
  | some i =>
    match lookupRecent s.recent i with
    | some t => now - t < DUPLICATE_WINDOW_MS
    | none => false

/-- The recent-id map after the tracking update of `broadcastEvent`:
`set` the id to `now`, then run the cleanup loop (events without an id
skip the whole duplicate-tracking block). -/
def recentAfter (now : Int) (e : WEvent) (s : FanState) : List (String × Int) :=
  match e.id with
  | none => s.recent
  | some i => cleanupRecent now (setRecent s.recent i now)

/-- The enqueue-plus-backpressure phase of `broadcastEvent`: push the
event, and if the queue now exceeds the soft cap, splice off the oldest
`queueSize − cap` events and unshift one gap marker. -/
def admitToQueue (now : Int) (e : WEvent) (s : FanState) : FanState :=
  let q1 := s.queue ++ [e]
  if q1.length > MAX_QUEUE_SIZE then
    let droppedCount := q1.length - MAX_QUEUE_SIZE
    let droppedEvents := q1.take droppedCount
    let gap := mkGapEvent now e s.lastDeliveredEventId droppedCount droppedEvents
    { s with
      recent := recentAfter now e s
      queue := gap :: q1.drop droppedCount
      droppedEventsTotal := s.droppedEventsTotal + droppedCount
      droppedEventsHistory :=
        s.droppedEventsHistory ++ List.replicate droppedCount now }
  else { s with recent := recentAfter now e s, queue := q1 }

/-- The scheduling tail of `broadcastEvent`: leading edge, max-batch
immediate flush, or window timer. -/
def scheduleAfterPush (s1 : FanState) : FanState :=
  if s1.queue.length = 1 ∧ LEADING_EDGE ∧ ¬ s1.batchTimer ∧ ¬ s1.immediateScheduled then
    { s1 with immediateScheduled := true }
  else if s1.queue.length ≥ MAX_BATCH_SIZE then
    flushBatch { s1 with batchTimer := false, immediateScheduled := false }
  else if ¬ s1.batchTimer ∧ ¬ s1.immediateScheduled then
    { s1 with batchTimer := true }
  else s1

def broadcastEvent (now : Int) (e : WEvent) (s : FanState) : FanState :=
  -- duplicate detection (only for events that carry an id)
  if isDuplicate now e s then s
  else scheduleAfterPush (admitToQueue now e s)

/-- Scheduler actions against the fan-out: an arriving event, the firing
of the batch-window timer callback, and the firing of a scheduled
`setImmediate` callback (which clears `immediateScheduled` before calling
`flushBatch`). Allowing the two fire actions at arbitrary points covers
every real ordering of pending timers and immediates, including stale
callbacks whose handle was overwritten. -/
inductive FanAct where
  | arrive (now : Int) (e : WEvent)
  | fireTimer
  | fireImmediate
deriving Repr, DecidableEq

def fanStep (s : FanState) : FanAct → FanState
  | .arrive now e => broadcastEvent now e s
  | .fireTimer => flushBatch s
  | .fireImmediate => flushBatch { s with immediateScheduled := false }

def fanRun (s : FanState) (tr : List FanAct) : FanState :=
  tr.foldl fanStep s

/-- The events an action trace admits (the arguments of its `arrive`
actions, in order). -/
def arrivals (tr : List FanAct) : List WEvent :=
  tr.filterMap (fun a => match a with
    | .arrive _ e => some e
    | _ => none)

/-! ### Ordering predicates used by the batch invariants -/

/-- The numeric offset carried by an event, when its id is canonical. -/
def eventOffset (e : WEvent) : Option Int := e.id.bind offsetOf

/-- Numeric offset comparison between two events (the ordering primitive of
the spec assertions): true exactly when both ids are canonical and the
offsets strictly increase. -/
def offLtB (a b : WEvent) : Bool :=
  match eventOffset a, eventOffset b with
  | some m, some n => m < n
  | _, _ => false

/-- Whether an event is a backpressure gap marker. -/
def isGapMarker (e : WEvent) : Bool := e.gap_type = some "dropped"

/-- Adjacent-pairs check, a computable `List.Chain'`. -/
def chainB {α : Type _} (R : α → α → Bool) : List α → Bool
  | [] => true
  | [_] => true
  | x :: y :: rest => R x y && chainB R (y :: rest)

theorem chainB_iff_chain' {α : Type _} (R : α → α → Bool) :
    ∀ l : List α, chainB R l = true ↔ l.Chain' (fun x y => R x y = true)
  | [] => by simp [chainB]
  | [x] => by simp [chainB]
  | x :: y :: rest => by
    rw [List.chain'_cons, chainB, Bool.and_eq_true,
      chainB_iff_chain' R (y :: rest)]

/-- Spec invariant 1, as claimed: within every delivered batch, adjacent
events have strictly increasing numeric offsets. -/
def c1Within (s : FanState) : Prop :=
  ∀ b ∈ s.delivered, chainB offLtB b = true

/-- Cross-batch comparison as claimed: last event of the earlier batch
versus first event of the later batch, allowing the gap-marker exception. -/
def crossOkB (b1 b2 : List WEvent) : Bool :=
  match b1.getLast?, b2.head? with
  | some x, some y => offLtB x y || isGapMarker x || isGapMarker y
  | _, _ => true

/-- Cross-batch comparison with no gap-marker exception. -/
def crossStrictB (b1 b2 : List WEvent) : Bool :=
  match b1.getLast?, b2.head? with
  | some x, some y => offLtB x y
  | _, _ => true

/-- Spec invariant 2, as claimed: across adjacent batches delivered to the
client, the first id of the new batch numerically exceeds the last id of
the prior batch, except where a gap marker brackets missing ids. -/
def c1Cross (s : FanState) : Prop :=
  chainB crossOkB s.delivered = true

/-- Cross-batch ordering with no gap-marker exception (used by the amended
claim, where no gap marker can arise). -/
def c1CrossStrict (s : FanState) : Prop :=
  chainB crossStrictB s.delivered = true

theorem offLtB_iff {a b : WEvent} :
    offLtB a b = true ↔
      ∃ m n, eventOffset a = some m ∧ eventOffset b = some n ∧ m < n := by
  unfold offLtB
  cases ha : eventOffset a <;> cases hb : eventOffset b <;>
    simp [ha, hb]

/-! ### Behaviour of `flushBatch` -/

/-- What one `flushBatch` cascade does: it appends some batches to the
delivered trace, the concatenation of those batches followed by the
remaining queue is exactly the original queue, every appended batch is
nonempty, and the first appended batch is the head `min(length, 100)`
events of the original queue. -/
theorem batchOf_ne_nil {s : FanState} (hq : s.queue ≠ []) : batchOf s ≠ [] := by
  have hlen : 0 < s.queue.length := List.length_pos.mpr hq
  intro h
  have h2 := congrArg List.length h
  simp only [batchOf, List.length_take, List.length_nil] at h2
  have hM : MAX_BATCH_SIZE = 100 := rfl
  omega

theorem flushOnce_queue (s : FanState) :
    (flushOnce s).queue = s.queue.drop (min s.queue.length MAX_BATCH_SIZE) := rfl

theorem flushOnce_delivered (s : FanState) :
    (flushOnce s).delivered = s.delivered ++ [batchOf s] := rfl

theorem flushOnce_split (s : FanState) :
    batchOf s ++ (flushOnce s).queue = s.queue := by
  rw [flushOnce_queue]
  exact List.take_append_drop _ _

theorem flushBatchAux_spec (fuel : Nat) (s : FanState) :
    ∃ bs : List (List WEvent),
      (flushBatchAux fuel s).delivered = s.delivered ++ bs ∧
      bs.flatten ++ (flushBatchAux fuel s).queue = s.queue ∧
      (∀ b ∈ bs, b ≠ []) ∧
      (bs = [] → flushBatchAux fuel s = s) ∧
      (fuel ≠ 0 → s.queue ≠ [] → bs.head? = some (batchOf s)) := by
  induction fuel generalizing s with
  | zero => exact ⟨[], by simp [flushBatchAux]⟩
  | succ fuel ih =>
    by_cases hq : s.queue = []
    · exact ⟨[], by simp [flushBatchAux, hq]⟩
    · have hbatch := batchOf_ne_nil hq
      by_cases hrest : (flushOnce s).queue = []
      · refine ⟨[batchOf s], ?_, ?_, by simp [hbatch], by simp, fun _ _ => rfl⟩
        · simp [flushBatchAux, hq, hrest, flushOnce_delivered]
        · simp only [flushBatchAux, if_neg hq, if_pos hrest]
          simpa [hrest] using flushOnce_split s
      · by_cases hbig : MAX_BATCH_SIZE ≤ (flushOnce s).queue.length
        · obtain ⟨bs, h1, h2, h3, _, _⟩ := ih (flushOnce s)
          refine ⟨batchOf s :: bs, ?_, ?_, ?_, by simp, fun _ _ => rfl⟩
          · simp only [flushBatchAux, if_neg hq, if_neg hrest, if_pos hbig]
            rw [h1, flushOnce_delivered]
            simp
          · simp only [flushBatchAux, if_neg hq, if_neg hrest, if_pos hbig]
            calc (batchOf s :: bs).flatten ++ (flushBatchAux fuel (flushOnce s)).queue
                = batchOf s ++ (bs.flatten ++ (flushBatchAux fuel (flushOnce s)).queue) := by
                  simp
              _ = batchOf s ++ (flushOnce s).queue := by rw [h2]
              _ = s.queue := flushOnce_split s
          · intro b hb
            rcases List.mem_cons.mp hb with hb | hb
            · simpa [hb] using hbatch
            · exact h3 b hb
        · refine ⟨[batchOf s], ?_, ?_, by simp [hbatch], by simp, fun _ _ => rfl⟩
          · simp [flushBatchAux, hq, hrest, hbig, flushOnce_delivered]
          · simp only [flushBatchAux, if_neg hq, if_neg hrest, if_neg hbig]
            simpa using flushOnce_split s

theorem flushBatchAux_len (fuel : Nat) (s : FanState) (hq : s.queue ≠ [])
    (hfuel : s.queue.length ≤ fuel) :
    (flushBatchAux fuel s).queue.length < MAX_BATCH_SIZE := by
  induction fuel generalizing s with
  | zero =>
    exact absurd (List.eq_nil_of_length_eq_zero (Nat.le_zero.mp hfuel)) hq
  | succ fuel ih =>
    have hM : MAX_BATCH_SIZE = 100 := rfl
    have hlen : 0 < s.queue.length := List.length_pos.mpr hq
    have hrlen : (flushOnce s).queue.length
        = s.queue.length - min s.queue.length MAX_BATCH_SIZE := by
      rw [flushOnce_queue, List.length_drop]
    by_cases hrest : (flushOnce s).queue = []
    · simp only [flushBatchAux, if_neg hq, if_pos hrest]
      rw [hrest]
      simp [hM]
    · by_cases hbig : MAX_BATCH_SIZE ≤ (flushOnce s).queue.length
      · simp only [flushBatchAux, if_neg hq, if_neg hrest, if_pos hbig]
        exact ih (flushOnce s) hrest (by omega)
      · simp only [flushBatchAux, if_neg hq, if_neg hrest, if_neg hbig]
        omega

theorem flushBatch_len (s : FanState) (hq : s.queue ≠ []) :
    (flushBatch s).queue.length < MAX_BATCH_SIZE :=
  flushBatchAux_len s.queue.length s hq le_rfl

theorem flushBatch_spec (s : FanState) (hq : s.queue ≠ []) :
    ∃ bs : List (List WEvent),
      (flushBatch s).delivered = s.delivered ++ bs ∧
      bs.flatten ++ (flushBatch s).queue = s.queue ∧
      (∀ b ∈ bs, b ≠ []) ∧
      bs.head? = some (batchOf s) := by
  obtain ⟨bs, h1, h2, h3, _, h5⟩ := flushBatchAux_spec s.queue.length s
  exact ⟨bs, h1, h2, h3,
    h5 (fun h0 => hq (List.eq_nil_of_length_eq_zero h0)) hq⟩

theorem flushBatch_join (s : FanState) :
    (flushBatch s).delivered.flatten ++ (flushBatch s).queue
      = s.delivered.flatten ++ s.queue := by
  obtain ⟨bs, h1, h2, _, _, _⟩ := flushBatchAux_spec s.queue.length s
  show (flushBatchAux s.queue.length s).delivered.flatten ++
      (flushBatchAux s.queue.length s).queue = _
  rw [h1, List.flatten_append, List.append_assoc, h2]

theorem flushBatchAux_stable (fuel : Nat) (s : FanState) :
    (flushBatchAux fuel s).recent = s.recent ∧
    (flushBatchAux fuel s).droppedEventsTotal = s.droppedEventsTotal := by
  induction fuel generalizing s with
  | zero => simp [flushBatchAux]
  | succ fuel ih =>
    by_cases hq : s.queue = []
    · simp [flushBatchAux, hq]
    · simp only [flushBatchAux, if_neg hq]
      by_cases hrest : (flushOnce s).queue = []
      · simp only [if_pos hrest]
        exact ⟨rfl, rfl⟩
      · simp only [if_neg hrest]
        by_cases hbig : MAX_BATCH_SIZE ≤ (flushOnce s).queue.length
        · simp only [if_pos hbig]
          obtain ⟨ha, hb⟩ := ih (flushOnce s)
          exact ⟨ha, hb⟩
        · simp only [if_neg hbig]
          exact ⟨rfl, rfl⟩

theorem scheduleAfterPush_join (s1 : FanState) :
    (scheduleAfterPush s1).delivered.flatten ++ (scheduleAfterPush s1).queue
      = s1.delivered.flatten ++ s1.queue := by
  unfold scheduleAfterPush
  split_ifs with h1 h2 h3
  · rfl
  · exact flushBatch_join _
  · rfl
  · rfl

theorem scheduleAfterPush_flush (s1 : FanState)
    (h : MAX_BATCH_SIZE ≤ s1.queue.length) :
    scheduleAfterPush s1
      = flushBatch { s1 with batchTimer := false, immediateScheduled := false } := by
  unfold scheduleAfterPush
  rw [if_neg, if_pos h]
  rintro ⟨h1, -⟩
  rw [h1] at h
  exact absurd h (by decide)

/-- For a non-duplicate event, `broadcastEvent` is the scheduling tail
applied to the enqueue phase. -/
theorem broadcastEvent_not_dup (now : Int) (e : WEvent) (s : FanState)
    (hdup : isDuplicate now e s = false) :
    broadcastEvent now e s = scheduleAfterPush (admitToQueue now e s) := by
  simp [broadcastEvent, hdup]

/-- Below the soft cap, the enqueue phase just appends the event. -/
theorem admitToQueue_under (now : Int) (e : WEvent) (s : FanState)
    (hlen : s.queue.length < MAX_QUEUE_SIZE) :
    admitToQueue now e s
      = { s with recent := recentAfter now e s, queue := s.queue ++ [e] } := by
  have hM : MAX_QUEUE_SIZE = 1000 := rfl
  have hbp : ¬ (s.queue ++ [e]).length > MAX_QUEUE_SIZE := by
    simp only [List.length_append, List.length_cons, List.length_nil]
    omega
  unfold admitToQueue
  rw [if_neg hbp]

/-- Admitting a non-duplicate event below the backpressure threshold
appends it to the stream of queued-or-delivered events. -/
theorem broadcastEvent_join (now : Int) (e : WEvent) (s : FanState)
    (hdup : isDuplicate now e s = false)
    (hlen : s.queue.length < MAX_QUEUE_SIZE) :
    (broadcastEvent now e s).delivered.flatten ++ (broadcastEvent now e s).queue
      = s.delivered.flatten ++ s.queue ++ [e] := by
  rw [broadcastEvent_not_dup now e s hdup, admitToQueue_under now e s hlen,
    scheduleAfterPush_join]
  simp

theorem broadcastEvent_drop (now : Int) (e : WEvent) (s : FanState)
    (hdup : isDuplicate now e s = true) :
    broadcastEvent now e s = s := by
  simp [broadcastEvent, hdup]

/-! ### Claim C6: the recent-window duplicate filter -/

/-- Conclusion of claim C6 for an event `e` with id `i` arriving at `now`:
if `i` was admitted to the recent map less than 5000 ms ago the event is
dropped (the fan-out state is completely untouched, so in particular the
event is not enqueued); otherwise (given the queue is below the soft cap,
as it is in every reachable state) the event is admitted: the stream of
delivered-or-queued events grows by exactly this event. -/
def C6Conclusion (s : FanState) (now : Int) (e : WEvent) (i : String) : Prop :=
  ((∃ t, lookupRecent s.recent i = some t ∧ now - t < DUPLICATE_WINDOW_MS) →
    broadcastEvent now e s = s) ∧
  (s.queue.length < MAX_QUEUE_SIZE →
    (∀ t, lookupRecent s.recent i = some t → DUPLICATE_WINDOW_MS ≤ now - t) →
    ((broadcastEvent now e s).delivered.flatten
        ++ (broadcastEvent now e s).queue).count e
      = (s.delivered.flatten ++ s.queue).count e + 1)

/-- C6: for every incoming event with an id, the fan-out drops the event
if and only if that id was admitted to the recent map within the last
5000 ms; outside the window the id is re-admitted, and a dropped event is
not enqueued. -/
theorem c6_duplicate_window (s : FanState) (now : Int) (e : WEvent)
    (i : String) (hid : e.id = some i) : C6Conclusion s now e i := by
  constructor
  · rintro ⟨t, hl, ht⟩
    apply broadcastEvent_drop
    simp [isDuplicate, hid, hl, ht]
  · intro hq hfresh
    have hdup : isDuplicate now e s = false := by
      simp only [isDuplicate, hid]
      cases hl : lookupRecent s.recent i with
      | none => rfl
      | some t =>
        simpa using not_lt.mpr (hfresh t hl)
    rw [broadcastEvent_join now e s hdup hq]
    simp
    omega

def c6DemoState : FanState := { recent := [("file_watcher:7", 0)] }
def c6DemoEvent : WEvent := { id := some "file_watcher:7" }

/-- Witness for C6 at a concrete input. -/
theorem c6_duplicate_window_witness :
    c6DemoEvent.id = some "file_watcher:7" ∧
    C6Conclusion c6DemoState 100 c6DemoEvent "file_watcher:7" :=
  ⟨rfl, c6_duplicate_window c6DemoState 100 c6DemoEvent "file_watcher:7" rfl⟩

/-! ### Claim C3: backpressure and the gap marker -/

theorem gap_to_offset {di : String} {m : Int} (h : offsetOf di = some m) :
    parseIntJS
      (if (splitColon di).getD 1 "" = "" then "0" else (splitColon di).getD 1 "")
      = some m := by
  unfold offsetOf at h
  cases hs : splitColon di with
  | nil => rw [hs] at h; cases h
  | cons a tl =>
    cases tl with
    | nil => rw [hs] at h; cases h
    | cons p tl2 =>
      cases tl2 with
      | nil =>
        rw [hs] at h
        have h' : parseIntJS p = some m := h
        by_cases hp : p = ""
        · rw [hp] at h'
          exact absurd h' (by simp [show parseIntJS "" = none from rfl])
        · simpa [List.getD, hp] using h'
      | cons c tl3 => rw [hs] at h; cases h

/-- Conclusion of claim C3 for an admission that pushes the queue over the
soft cap: with `q1` the queue after the push and
`N = q1.length − MAX_QUEUE_SIZE`, exactly the `N` oldest events are
removed, exactly one gap marker `g` is placed before the surviving events,
the very next delivered batch starts with `g`, and the fields of `g` are
as the spec describes. -/
def C3Conclusion (s : FanState) (now : Int) (e : WEvent) (i : String) : Prop :=
  let q1 := s.queue ++ [e]
  let N := q1.length - MAX_QUEUE_SIZE
  let s' := broadcastEvent now e s
  ∃ (bs : List (List WEvent)) (g : WEvent),
    s'.delivered = s.delivered ++ bs ∧
    (∃ b1, bs.head? = some (g :: b1)) ∧
    bs.flatten ++ s'.queue = g :: q1.drop N ∧
    g.gap_type = some "dropped" ∧
    g.dropped_count = some (N : Int) ∧
    g.from_event_id = some (s.lastDeliveredEventId.getD "unknown") ∧
    g.id = some (i ++ ":gap") ∧
    g.reason = some "Events dropped due to backpressure" ∧
    (∀ de di m, (q1.take N).getLast? = some de → de.id = some di →
      offsetOf di = some m → g.to_offset = some m) ∧
    s'.droppedEventsTotal = s.droppedEventsTotal + N

/-- C3: when an admission pushes the queue past the soft cap of 1000, the
fan-out removes exactly `N = queueSize − cap` events from the head and
delivers exactly one gap marker, first in the very next batch, carrying
`dropped_count = N`, `from_event_id` the delivery watermark (or
`"unknown"`), `to_offset` the offset embedded in the newest dropped
event's id, and an id formed from the triggering event's id plus `:gap`. -/
theorem c3_backpressure_gap (s : FanState) (now : Int) (e : WEvent)
    (i : String) (hid : e.id = some i)
    (hdup : isDuplicate now e s = false)
    (hover : MAX_QUEUE_SIZE < (s.queue ++ [e]).length) :
    C3Conclusion s now e i := by
  simp only [C3Conclusion]
  set q1 := s.queue ++ [e] with hq1
  set N := q1.length - MAX_QUEUE_SIZE with hN
  set g := mkGapEvent now e s.lastDeliveredEventId N (q1.take N) with hg
  have hkept : (q1.drop N).length = MAX_QUEUE_SIZE := by
    rw [List.length_drop]
    omega
  set s1 : FanState :=
    { s with
      recent := recentAfter now e s
      queue := g :: q1.drop N
      droppedEventsTotal := s.droppedEventsTotal + N
      droppedEventsHistory :=
        s.droppedEventsHistory ++ List.replicate N now } with hs1
  have hadmit : admitToQueue now e s = s1 := by
    simp only [admitToQueue]
    rw [if_pos (show (s.queue ++ [e]).length > MAX_QUEUE_SIZE from hover)]
  have hs1len : s1.queue.length = MAX_QUEUE_SIZE + 1 := by
    show (g :: q1.drop N).length = MAX_QUEUE_SIZE + 1
    rw [List.length_cons, hkept]
  have hstep : broadcastEvent now e s
      = flushBatch { s1 with batchTimer := false, immediateScheduled := false } := by
    rw [broadcastEvent_not_dup now e s hdup, hadmit,
      scheduleAfterPush_flush s1 (by rw [hs1len]; decide)]
  set s2 : FanState := { s1 with batchTimer := false, immediateScheduled := false }
    with hs2
  have hq2 : s2.queue = g :: q1.drop N := rfl
  have hq2ne : s2.queue ≠ [] := by rw [hq2]; simp
  obtain ⟨bs, hdel, hflat, hne, hhead⟩ := flushBatch_spec s2 hq2ne
  have hbatch : ∃ b1, batchOf s2 = g :: b1 := by
    refine ⟨(q1.drop N).take (min s2.queue.length MAX_BATCH_SIZE - 1), ?_⟩
    have hmin : min s2.queue.length MAX_BATCH_SIZE
        = (min s2.queue.length MAX_BATCH_SIZE - 1) + 1 := by
      have hl2 : s2.queue.length = MAX_QUEUE_SIZE + 1 := hs1len
      rw [hl2]
      decide
    unfold batchOf
    rw [hq2, hmin, List.take_succ_cons]
    simp
  refine ⟨bs, g, ?_, ?_, ?_, rfl, rfl, rfl, ?_, rfl, ?_, ?_⟩
  · rw [hstep, hdel]
  · obtain ⟨b1, hb1⟩ := hbatch
    exact ⟨b1, by rw [hhead, hb1]⟩
  · rw [hstep, hflat, hq2]
  · simp [hg, mkGapEvent, hid]
  · intro de di m hlast hdid hoff
    simp only [hg, mkGapEvent, hlast, hdid]
    exact gap_to_offset hoff
  · rw [hstep]
    show (flushBatchAux s2.queue.length s2).droppedEventsTotal = _
    rw [(flushBatchAux_stable s2.queue.length s2).2]

/-! ### Claim C1: batch ordering -/

theorem mem_of_getLast?_some {α : Type _} :
    ∀ {l : List α} {a : α}, l.getLast? = some a → a ∈ l
  | [], _, h => by cases h
  | [x], a, h => by
    simp at h
    simp [h]
  | x :: y :: zs, a, h => by
    rw [List.getLast?_cons_cons] at h
    exact List.mem_cons_of_mem _ (mem_of_getLast?_some h)

theorem chain'_cross_of_pairwise_flatten (R : WEvent → WEvent → Bool) :
    ∀ (L : List (List WEvent)), (∀ b ∈ L, b ≠ []) →
      L.flatten.Pairwise (fun x y => R x y = true) →
      L.Chain' (fun b1 b2 => ∀ x ∈ b1.getLast?, ∀ y ∈ b2.head?, R x y = true)
  | [], _, _ => List.chain'_nil
  | [_], _, _ => by simp
  | b1 :: b2 :: rest, hne, hp => by
    have hp1 : (b1 ++ (b2 :: rest).flatten).Pairwise (fun x y => R x y = true) := by
      simpa using hp
    obtain ⟨_, hp2, hcross⟩ := List.pairwise_append.mp hp1
    rw [List.chain'_cons]
    constructor
    · intro x hx y hy
      refine hcross x (mem_of_getLast?_some (Option.mem_def.mp hx)) y ?_
      exact List.mem_flatten.mpr ⟨b2, by simp, List.mem_of_mem_head? hy⟩
    · exact chain'_cross_of_pairwise_flatten R (b2 :: rest)
        (fun b hb => hne b (List.mem_cons_of_mem _ hb)) hp2

/-- An upper bound `w` on the offsets in the fan-out: the ordering
invariant for the amended claim C1. All queued-or-delivered events carry
canonical ids; along the stream the offsets strictly increase; every
delivered batch is nonempty; and the queue stays strictly below the batch
ceiling between scheduler steps, so backpressure can never fire. -/
structure FanInv (s : FanState) (w : Option Int) : Prop where
  sorted : (s.delivered.flatten ++ s.queue).Pairwise (fun x y => offLtB x y = true)
  bound : ∀ e ∈ s.delivered.flatten ++ s.queue,
    ∃ n, eventOffset e = some n ∧ ∀ v ∈ w, n ≤ v
  wnone : w = none → s.delivered.flatten ++ s.queue = []
  bne : ∀ b ∈ s.delivered, b ≠ []
  qlen : s.queue.length < MAX_BATCH_SIZE

theorem fanInv_init : FanInv fanInit none := by
  refine ⟨?_, ?_, ?_, ?_, ?_⟩ <;> simp [fanInit, MAX_BATCH_SIZE]

/-- `flushBatch` establishes the fan-out invariant from its four core
clauses alone: the resulting queue is below the ceiling whatever the
input queue length was. -/
theorem flushBatch_inv (s : FanState) (w : Option Int)
    (hsorted : (s.delivered.flatten ++ s.queue).Pairwise
      (fun x y => offLtB x y = true))
    (hbound : ∀ e ∈ s.delivered.flatten ++ s.queue,
      ∃ n, eventOffset e = some n ∧ ∀ v ∈ w, n ≤ v)
    (hwnone : w = none → s.delivered.flatten ++ s.queue = [])
    (hbne : ∀ b ∈ s.delivered, b ≠ []) :
    FanInv (flushBatch s) w := by
  by_cases hq : s.queue = []
  · have heq : flushBatch s = s := by
      unfold flushBatch
      rw [hq]
      rfl
    rw [heq]
    refine ⟨hsorted, hbound, hwnone, hbne, ?_⟩
    rw [hq]
    decide
  · obtain ⟨bs, hdel, hflat, hne, _⟩ := flushBatch_spec s hq
    have hjoin := flushBatch_join s
    refine ⟨?_, ?_, ?_, ?_, flushBatch_len s hq⟩
    · rw [hjoin]; exact hsorted
    · rw [hjoin]; exact hbound
    · intro hw
      rw [hjoin]
      exact hwnone hw
    · rw [hdel]
      intro b hb
      rcases List.mem_append.mp hb with hb | hb
      · exact hbne b hb
      · exact hne b hb

theorem scheduleAfterPush_inv {s1 : FanState} {w : Option Int}
    (hsorted : (s1.delivered.flatten ++ s1.queue).Pairwise
      (fun x y => offLtB x y = true))
    (hbound : ∀ e ∈ s1.delivered.flatten ++ s1.queue,
      ∃ n, eventOffset e = some n ∧ ∀ v ∈ w, n ≤ v)
    (hwnone : w = none → s1.delivered.flatten ++ s1.queue = [])
    (hbne : ∀ b ∈ s1.delivered, b ≠ [])
    (hqlen : s1.queue.length ≤ MAX_BATCH_SIZE) :
    FanInv (scheduleAfterPush s1) w := by
  unfold scheduleAfterPush
  split_ifs with h1 h2 h3
  · exact ⟨hsorted, hbound, hwnone, hbne, by
      show s1.queue.length < MAX_BATCH_SIZE
      rw [h1.1]
      decide⟩
  · exact flushBatch_inv _ w hsorted hbound hwnone hbne
  · exact ⟨hsorted, hbound, hwnone, hbne, by
      show s1.queue.length < MAX_BATCH_SIZE
      omega⟩
  · exact ⟨hsorted, hbound, hwnone, hbne, by
      show s1.queue.length < MAX_BATCH_SIZE
      omega⟩

theorem broadcastEvent_inv {s : FanState} {w : Option Int} (h : FanInv s w)
    (now : Int) (e : WEvent) (n : Int)
    (hoff : eventOffset e = some n) (hfresh : ∀ v ∈ w, v < n) :
    FanInv (broadcastEvent now e s) (some n) := by
  have hboundn : ∀ x ∈ s.delivered.flatten ++ s.queue,
      ∃ m, eventOffset x = some m ∧ m < n := by
    intro x hx
    obtain ⟨m, hm, hb⟩ := h.bound x hx
    cases w with
    | none =>
      rw [h.wnone rfl] at hx
      cases hx
    | some v0 =>
      exact ⟨m, hm, lt_of_le_of_lt (hb v0 (by simp)) (hfresh v0 (by simp))⟩
  by_cases hdup : isDuplicate now e s = true
  · rw [broadcastEvent_drop now e s hdup]
    refine ⟨h.sorted, ?_, by simp, h.bne, h.qlen⟩
    intro x hx
    obtain ⟨m, hm, hb⟩ := hboundn x hx
    refine ⟨m, hm, ?_⟩
    intro v hv
    have hv' : n = v := by simpa using hv
    omega
  · have hdup' : isDuplicate now e s = false := by
      cases hd : isDuplicate now e s
      · rfl
      · exact absurd hd hdup
    have hqlt : s.queue.length < MAX_QUEUE_SIZE := by
      have h1 := h.qlen
      have h2 : MAX_BATCH_SIZE = 100 := rfl
      have h3 : MAX_QUEUE_SIZE = 1000 := rfl
      omega
    rw [broadcastEvent_not_dup now e s hdup', admitToQueue_under now e s hqlt]
    apply @scheduleAfterPush_inv _ (some n)
    · show (s.delivered.flatten ++ (s.queue ++ [e])).Pairwise
        (fun x y => offLtB x y = true)
      rw [← List.append_assoc]
      apply List.pairwise_append.mpr
      refine ⟨h.sorted, by simp, ?_⟩
      intro x hx y hy
      have hy' : y = e := by simpa using hy
      subst hy'
      obtain ⟨m, hm, hb⟩ := hboundn x hx
      rw [offLtB_iff]
      exact ⟨m, n, hm, hoff, hb⟩
    · intro x hx
      rw [show (s.delivered.flatten ++ (s.queue ++ [e]))
          = (s.delivered.flatten ++ s.queue) ++ [e] from by
        rw [List.append_assoc]] at hx
      rcases List.mem_append.mp hx with hx | hx
      · obtain ⟨m, hm, hb⟩ := hboundn x hx
        refine ⟨m, hm, ?_⟩
        intro v hv
        have hv' : n = v := by simpa using hv
        omega
      · have hx' : x = e := by simpa using hx
        subst hx'
        refine ⟨n, hoff, ?_⟩
        intro v hv
        have hv' : n = v := by simpa using hv
        omega
    · intro hcon
      cases hcon
    · exact h.bne
    · show (s.queue ++ [e]).length ≤ MAX_BATCH_SIZE
      rw [List.length_append]
      have h1 := h.qlen
      simp only [List.length_cons, List.length_nil]
      omega

theorem fanRun_inv :
    ∀ (tr : List FanAct) (s : FanState) (w : Option Int),
      FanInv s w →
      (arrivals tr).Pairwise (fun a b => offLtB a b = true) →
      (∀ e ∈ arrivals tr, ∃ n, eventOffset e = some n ∧ ∀ v ∈ w, v < n) →
      ∃ w', FanInv (fanRun s tr) w'
  | [], _, w, h, _, _ => ⟨w, h⟩
  | .arrive now e :: rest, s, w, h, hpair, hfresh => by
    have harr : arrivals (.arrive now e :: rest) = e :: arrivals rest := rfl
    rw [harr] at hpair hfresh
    obtain ⟨n, hoff, hlt⟩ := hfresh e (by simp)
    have h' : FanInv (broadcastEvent now e s) (some n) :=
      broadcastEvent_inv h now e n hoff hlt
    obtain ⟨hhead, htail⟩ := List.pairwise_cons.mp hpair
    apply fanRun_inv rest _ (some n) h' htail
    intro e' he'
    obtain ⟨n', hoff', _⟩ := hfresh e' (List.mem_cons_of_mem _ he')
    refine ⟨n', hoff', ?_⟩
    intro v hv
    have hv' : n = v := by simpa using hv
    subst hv'
    have hrel := hhead e' he'
    rw [offLtB_iff] at hrel
    obtain ⟨m, n'', hm, hn'', hlt2⟩ := hrel
    rw [hoff] at hm
    rw [hoff'] at hn''
    have hm' := Option.some.inj hm
    have hn''' := Option.some.inj hn''
    omega
  | .fireTimer :: rest, s, w, h, hpair, hfresh =>
    fanRun_inv rest _ w
      (flushBatch_inv s w h.sorted h.bound h.wnone h.bne) hpair hfresh
  | .fireImmediate :: rest, s, w, h, hpair, hfresh =>
    fanRun_inv rest _ w
      (flushBatch_inv { s with immediateScheduled := false } w
        h.sorted h.bound h.wnone h.bne) hpair hfresh

def c1DemoA : WEvent := { id := some "file_watcher:5" }
def c1DemoB : WEvent := { id := some "file_watcher:3" }

/-- A real schedule: both events arrive in one synchronous burst (the
first arrival schedules a `setImmediate`), then the pending immediate
callback runs and flushes. -/
def c1DemoTrace : List FanAct :=
  [.arrive 0 c1DemoA, .arrive 0 c1DemoB, .fireImmediate]

/-- C1 counterexample: the claimed invariant quantifies over every
sequence of admissions, but admitting ids `file_watcher:5` then
`file_watcher:3` in one burst delivers the batch `[5, 3]`, whose adjacent
offsets strictly decrease. -/
theorem c1_ordering_counterexample :
    ¬ (c1Within (fanRun fanInit c1DemoTrace) ∧
       c1Cross (fanRun fanInit c1DemoTrace)) := by
  unfold c1Within c1Cross
  decide

/-- C1 amended: if the admitted events all carry canonical numeric ids
with strictly increasing offsets (as watcher admissions do), then under
every scheduling of timer and immediate callbacks, all delivered batches
are strictly increasing by numeric offset within the batch and across
adjacent batches, with no gap-marker exception needed. -/
theorem c1_amended_ordering (tr : List FanAct)
    (hpair : (arrivals tr).Pairwise (fun a b => offLtB a b = true))
    (hcanon : ∀ e ∈ arrivals tr, (eventOffset e).isSome) :
    c1Within (fanRun fanInit tr) ∧ c1CrossStrict (fanRun fanInit tr) := by
  obtain ⟨w, hinv⟩ := fanRun_inv tr fanInit none fanInv_init hpair
    (fun e he => by
      obtain ⟨n, hn⟩ := Option.isSome_iff_exists.mp (hcanon e he)
      exact ⟨n, hn, by simp⟩)
  constructor
  · intro b hb
    have hsub : List.Sublist b (fanRun fanInit tr).delivered.flatten :=
      List.sublist_flatten_of_mem hb
    have hsub2 : List.Sublist b
        ((fanRun fanInit tr).delivered.flatten ++ (fanRun fanInit tr).queue) :=
      hsub.trans (List.sublist_append_left _ _)
    exact (chainB_iff_chain' offLtB b).mpr (hinv.sorted.sublist hsub2).chain'
  · have hflpair : (fanRun fanInit tr).delivered.flatten.Pairwise
        (fun x y => offLtB x y = true) :=
      hinv.sorted.sublist (List.sublist_append_left _ _)
    have hchain := chain'_cross_of_pairwise_flatten offLtB
      (fanRun fanInit tr).delivered hinv.bne hflpair
    apply (chainB_iff_chain' crossStrictB _).mpr
    apply List.Chain'.imp ?_ hchain
    intro b1 b2 hrel
    unfold crossStrictB
    cases hl : b1.getLast? with
    | none => rfl
    | some x =>
      cases hh : b2.head? with
      | none => rfl
      | some y => exact hrel x (Option.mem_def.mpr hl) y (Option.mem_def.mpr hh)

def c1WitTrace : List FanAct :=
  [.arrive 0 c1DemoB, .arrive 0 c1DemoA, .fireImmediate]

/-- Witness for the amended C1 at a concrete increasing admission trace. -/
theorem c1_amended_ordering_witness :
    ((arrivals c1WitTrace).Pairwise (fun a b => offLtB a b = true) ∧
      ∀ e ∈ arrivals c1WitTrace, (eventOffset e).isSome) ∧
    (c1Within (fanRun fanInit c1WitTrace) ∧
      c1CrossStrict (fanRun fanInit c1WitTrace)) :=
  ⟨⟨by decide, by decide⟩,
    c1_amended_ordering c1WitTrace (by decide) (by decide)⟩

def c3DemoQueued : WEvent := { id := some "file_watcher:5" }
def c3DemoState : FanState := { queue := List.replicate 1000 c3DemoQueued }
def c3DemoEvent : WEvent := { id := some "file_watcher:2000" }

/-- Witness for C3 at a concrete over-cap admission. -/
theorem c3_backpressure_gap_witness :
    c3DemoEvent.id = some "file_watcher:2000" ∧
    isDuplicate 0 c3DemoEvent c3DemoState = false ∧
    MAX_QUEUE_SIZE < (c3DemoState.queue ++ [c3DemoEvent]).length ∧
    C3Conclusion c3DemoState 0 c3DemoEvent "file_watcher:2000" :=
  ⟨rfl, rfl,
    by
      show MAX_QUEUE_SIZE
        < (List.replicate 1000 c3DemoQueued ++ [c3DemoEvent]).length
      rw [List.length_append, List.length_replicate]
      decide,
    c3_backpressure_gap c3DemoState 0 c3DemoEvent "file_watcher:2000" rfl rfl
      (by
        show MAX_QUEUE_SIZE
          < (List.replicate 1000 c3DemoQueued ++ [c3DemoEvent]).length
        rw [List.length_append, List.length_replicate]
        decide)⟩

/-! ### Tailing watcher (`fileWatcher.ts`, final version: `readNewEvents`)

The JSON layer is a parameter `parse : List Nat → Option WEvent` standing
for `parseEvent` composed with UTF-8 decoding; universally quantified
theorems hold for the real parser in particular. Offsets are `Int` because
the source formula `lastOffset - carry.length + lineStart` can go negative
(see claim C2). The model covers the successful read path and the
truncation branch; `reading`/`dirty` scheduling is modelled separately for
claim C7. -/

structure WatchState where
  reading : Bool := false
  dirty : Bool := false
  lastOffset : Int := 0
  carry : List Nat := []
  lastEmittedOffset : Int := 0
  seen : List String := []
  consecutiveErrors : Nat := 0
deriving Repr, DecidableEq

def MAX_CONSECUTIVE_ERRORS : Nat := 10

/-- Line framing: split the combined buffer at every newline byte (0x0A);
returns the complete lines (each including its terminating newline) and
the remainder, which becomes the new carry. -/
def splitLinesAux (cur : List Nat) : List Nat → List (List Nat) × List Nat
  | [] => ([], cur.reverse)
  | b :: bs =>
    if b = 10 then
      let r := splitLinesAux [] bs
      ((cur.reverse ++ [10]) :: r.1, r.2)
    else splitLinesAux (b :: cur) bs

def splitLines (buf : List Nat) : List (List Nat) × List Nat :=
  splitLinesAux [] buf

/-- Attach line-start offsets beginning at `base`; in the source each line
start is `lastOffset − carry.length + lineStart`, and line `k` starts at
the sum of the lengths of lines before it. -/
def withStarts (base : Int) : List (List Nat) → List (List Nat × Int)
  | [] => []
  | l :: ls => (l, base) :: withStarts (base + l.length) ls

/-- ASCII model of `String.prototype.trim` on the line bytes. -/
def isSpaceByte (b : Nat) : Bool :=
  b = 32 || b = 9 || b = 10 || b = 13 || b = 11 || b = 12

def trimBytes (l : List Nat) : List Nat :=
  ((l.dropWhile isSpaceByte).reverse.dropWhile isSpaceByte).reverse

/-- The per-line loop of `readNewEvents`: duplicate check against `seen`
before parsing, insertion into `seen` before parsing, removal on parse
failure, skipping of blank lines, id and debug-tag attachment, and the
`lastEmittedOffset` update per emission. Returns the final `seen`, the
final `lastEmittedOffset`, and the emitted events in order. -/
def emitLoop (parse : List Nat → Option WEvent) :
    List (List Nat × Int) → List String → Int →
      List String × Int × List WEvent
  | [], seen, lastEmitted => (seen, lastEmitted, [])
  | (line, startOffset) :: rest, seen, lastEmitted =>
    let eventId := mkEventId startOffset
    if eventId ∈ seen then
      -- duplicate detected before parse: skip the line entirely
      emitLoop parse rest seen lastEmitted
    else
      let seen1 := eventId :: seen   -- mark as seen BEFORE parsing
      let lineText := trimBytes line
      if lineText = [] then
        emitLoop parse rest seen1 lastEmitted   -- skip empty lines
      else
        match parse lineText with
        | none =>
          -- parse failed: remove from seen so the line can be retried
          emitLoop parse rest (seen1.erase eventId) lastEmitted
        | some ev =>
          let ev' := { ev with id := some eventId
                               ingest_path := some "watcher" }
          let r := emitLoop parse rest seen1 startOffset
          (r.1, r.2.1, ev' :: r.2.2)

/-- The reset marker synthesized in the truncation branch of
`readNewEvents`. -/
def resetMarker (now : Int) (currentSize : Int) : WEvent :=
  { v := 1
    ts := now / 1000
    type := "unknown"
    session_id := "system"
    id := some (mkEventId currentSize)
    payload_keys := []
    reason := some "File truncated or rotated" }

/-- One completed read of `readNewEvents` over the file contents `file`
(the snapshot the `stat`/`read` calls observe), from watcher state `s`:
the truncation branch, the no-new-data branch, and the read-frame-emit
path. Returns the new state and the events handed to `broadcastEvent`. -/
def readCore (parse : List Nat → Option WEvent) (now : Int)
    (file : List Nat) (s : WatchState) : WatchState × List WEvent :=
  let currentSize : Int := (file.length : Int)
  if currentSize < s.lastOffset then
    -- file was truncated or rotated: reset state, emit reset marker
    ({ s with lastOffset := 0, lastEmittedOffset := 0,
              carry := [], seen := [] },
      [resetMarker now currentSize])
  else if currentSize ≤ s.lastOffset then
    (s, [])
  else
    -- read new bytes from lastOffset to EOF and prepend the carry
    let readBuffer := file.drop s.lastOffset.toNat
    let combined := s.carry ++ readBuffer
    let framed := splitLines combined
    let linesWithStarts := withStarts (s.lastOffset - s.carry.length) framed.1
    let lastOffset' :=
      match linesWithStarts.getLast? with
      | some le => le.2 + le.1.length
      | none => s.lastOffset
    let r := emitLoop parse linesWithStarts s.seen s.lastEmittedOffset
    ({ s with lastOffset := lastOffset'
              carry := framed.2
              seen := r.1
              lastEmittedOffset := r.2.1 },
      r.2.2)

/-! ### The combined watcher-plus-fan-out system

A trace action is either one completed watcher read over a file snapshot
(in the single-flight regime a read runs alone, so signal and completion
fuse into one atomic step) or the firing of a pending fan-out flush
callback. `wEmitted` is the ghost trace of every event the watcher handed
to `broadcastEvent`. -/

structure SysState where
  w : WatchState := {}
  fan : FanState := fanInit
  wEmitted : List WEvent := []
deriving Repr, DecidableEq

inductive SysAct where
  | read (file : List Nat) (now : Int)
  | fireTimer
  | fireImmediate
deriving Repr, DecidableEq

def sysStep (parse : List Nat → Option WEvent) (s : SysState) :
    SysAct → SysState
  | .read file now =>
    let r := readCore parse now file s.w
    { w := r.1
      fan := r.2.foldl (fun f ev => broadcastEvent now ev f) s.fan
      wEmitted := s.wEmitted ++ r.2 }
  | .fireTimer => { s with fan := flushBatch s.fan }
  | .fireImmediate =>
    { s with fan := flushBatch { s.fan with immediateScheduled := false } }

def sysRun (parse : List Nat → Option WEvent) (s : SysState)
    (tr : List SysAct) : SysState :=
  tr.foldl (sysStep parse) s

def sysInit : SysState := {}

/-! ### Claim C2: a line split across two reads -/

def c2File1 : List Nat := [97, 98, 99]
def c2File2 : List Nat := [97, 98, 99, 100, 101, 102, 10]
def c2Corrupt : List Nat := [97, 98, 99, 97, 98, 99, 100, 101, 102, 10]

/-- One fresh, nonblank line through the per-line loop. -/
theorem emitLoop_single_fresh (parse : List Nat → Option WEvent)
    (line : List Nat) (off : Int) (seen : List String) (lastEmitted : Int)
    (hfresh : mkEventId off ∉ seen) (htrim : trimBytes line ≠ []) :
    emitLoop parse [(line, off)] seen lastEmitted
      = match parse (trimBytes line) with
        | none => ((mkEventId off :: seen).erase (mkEventId off),
            lastEmitted, [])
        | some ev => (mkEventId off :: seen, off,
            [{ ev with id := some (mkEventId off)
                       ingest_path := some "watcher" }]) := by
  unfold emitLoop
  rw [if_neg hfresh, if_neg htrim]
  cases parse (trimBytes line) <;> rfl

/-- C2 (code bug): write the line `abcdef\n` in two flushes (`abc`, then
`def\n`) into an initially empty log. Because `readNewEvents` does not
advance `lastOffset` past bytes it moved into `carry`, the second read
re-reads the carried bytes and prepends the carry again: the single framed
line is the corrupted `abcabcdef\n`, its computed start offset is `−3`,
and so — for every parse function — no event with the true id
`file_watcher:0` is ever emitted; any emitted event carries the bogus id
`file_watcher:-3`. The spec requires exactly one event with id
`file_watcher:0`. -/
theorem c2_split_line_bug (parse : List Nat → Option WEvent) :
    (readCore parse 0 c2File1 {}).2 = [] ∧
    (readCore parse 0 c2File1 {}).1.carry = c2File1 ∧
    (readCore parse 0 c2File1 {}).1.lastOffset = 0 ∧
    splitLines (c2File1 ++ c2File2.drop 0) = ([c2Corrupt], []) ∧
    withStarts (0 - (c2File1.length : Int)) [c2Corrupt]
      = [(c2Corrupt, -3)] ∧
    (∀ ev ∈ (readCore parse 30 c2File2 (readCore parse 0 c2File1 {}).1).2,
      ev.id = some "file_watcher:-3") ∧
    (∀ ev ∈ (readCore parse 30 c2File2 (readCore parse 0 c2File1 {}).1).2,
      ev.id ≠ some "file_watcher:0") := by
  have h2 : (readCore parse 30 c2File2 (readCore parse 0 c2File1 {}).1).2
      = (emitLoop parse [(c2Corrupt, -3)] [] 0).2.2 := rfl
  rw [emitLoop_single_fresh parse c2Corrupt (-3) [] 0 (by simp)
    (by decide)] at h2
  have hid : mkEventId (-3) = "file_watcher:-3" := by decide
  refine ⟨rfl, rfl, rfl, by decide, by decide, ?_, ?_⟩ <;>
  · intro ev hev
    rw [h2] at hev
    cases hp : parse (trimBytes c2Corrupt) with
    | none =>
      rw [hp] at hev
      cases hev
    | some ev0 =>
      rw [hp] at hev
      simp only [List.mem_singleton] at hev
      subst hev
      simp [hid]

/-! ### Claim C4: truncation, the reset marker, and post-rotation delivery -/

theorem lookupRecent_mem {m : List (String × Int)} {id : String} {t : Int}
    (h : lookupRecent m id = some t) : (id, t) ∈ m := by
  unfold lookupRecent at h
  cases hf : m.find? (fun p => p.1 = id) with
  | none => rw [hf] at h; cases h
  | some p =>
    rw [hf] at h
    have hp := List.mem_of_find?_eq_some hf
    have hid : p.1 = id := by simpa using List.find?_some hf
    have ht : p.2 = t := by simpa using h
    rw [← hid, ← ht]
    simpa using hp

theorem mem_setRecent {m : List (String × Int)} {id : String} {ts : Int}
    {p : String × Int} (h : p ∈ setRecent m id ts) :
    p = (id, ts) ∨ p ∈ m := by
  induction m with
  | nil => simpa [setRecent] using h
  | cons q rest ih =>
    unfold setRecent at h
    by_cases hq : q.1 = id
    · rw [if_pos hq] at h
      rcases List.mem_cons.mp h with h | h
      · exact Or.inl h
      · exact Or.inr (List.mem_cons_of_mem _ h)
    · rw [if_neg hq] at h
      rcases List.mem_cons.mp h with h | h
      · exact Or.inr (by simp [h])
      · rcases ih h with h | h
        · exact Or.inl h
        · exact Or.inr (List.mem_cons_of_mem _ h)

theorem mem_cleanupRecent {now : Int} {m : List (String × Int)}
    {p : String × Int} (h : p ∈ cleanupRecent now m) : p ∈ m :=
  (List.mem_filter.mp h).1

theorem scheduleAfterPush_leading (s1 : FanState)
    (h1 : s1.queue.length = 1) (h2 : s1.batchTimer = false)
    (h3 : s1.immediateScheduled = false) :
    scheduleAfterPush s1 = { s1 with immediateScheduled := true } := by
  unfold scheduleAfterPush
  rw [if_pos ⟨h1, rfl, by simp [h2], by simp [h3]⟩]

theorem scheduleAfterPush_pending (s1 : FanState)
    (h1 : s1.queue.length ≠ 1) (h2 : s1.queue.length < MAX_BATCH_SIZE)
    (h3 : s1.immediateScheduled = true) :
    scheduleAfterPush s1 = s1 := by
  unfold scheduleAfterPush
  rw [if_neg (fun hc => h1 hc.1), if_neg (by omega),
    if_neg (fun hc => by rw [h3] at hc; exact hc.2 rfl)]

/-- A nonempty queue at or below the batch ceiling is delivered whole by
one flush. -/
theorem flushBatch_small (s : FanState) (hq : s.queue ≠ [])
    (hlen : s.queue.length ≤ MAX_BATCH_SIZE) :
    (flushBatch s).delivered = s.delivered ++ [s.queue] ∧
    (flushBatch s).queue = [] := by
  obtain ⟨bs, hdel, hflat, hne, hhead⟩ := flushBatch_spec s hq
  have hbatch : batchOf s = s.queue := by
    unfold batchOf
    rw [min_eq_left hlen, List.take_length]
  cases bs with
  | nil => cases hhead
  | cons b rest =>
    have hb : b = s.queue := by
      rw [hbatch] at hhead
      simpa using hhead
    subst hb
    have hcancel : rest.flatten ++ (flushBatch s).queue = [] := by
      apply @List.append_cancel_left _ s.queue
      simpa [List.append_assoc] using hflat
    obtain ⟨hrfl, hq2⟩ := List.append_eq_nil.mp hcancel
    have hrest : rest = [] := by
      cases rest with
      | nil => rfl
      | cons r rs =>
        exfalso
        apply hne r (by simp)
        have : r ++ rs.flatten = [] := by simpa using hrfl
        exact (List.append_eq_nil.mp this).1
    subst hrest
    exact ⟨by simpa using hdel, hq2⟩

theorem splitLinesAux_no_nl (l : List Nat) (hl : ¬ 10 ∈ l) :
    ∀ cur : List Nat,
      splitLinesAux cur (l ++ [10]) = ([cur.reverse ++ (l ++ [10])], []) := by
  induction l with
  | nil =>
    intro cur
    simp [splitLinesAux]
  | cons x xs ih =>
    intro cur
    have hx : ¬ x = 10 := fun h => hl (by simp [h])
    have hxs : ¬ 10 ∈ xs := fun h => hl (List.mem_cons_of_mem _ h)
    have hstep : splitLinesAux cur ((x :: xs) ++ [10])
        = splitLinesAux (x :: cur) (xs ++ [10]) := by
      conv_lhs => rw [List.cons_append, splitLinesAux]
      rw [if_neg hx]
    rw [hstep, ih hxs (x :: cur)]
    simp

/-- A newline-free line plus its terminator frames as one complete line
with empty carry. -/
theorem splitLines_single (l : List Nat) (hl : ¬ 10 ∈ l) :
    splitLines (l ++ [10]) = ([l ++ [10]], []) := by
  unfold splitLines
  rw [splitLinesAux_no_nl l hl []]
  simp

theorem isDuplicate_false_of_fresh (now : Int) (e : WEvent) (s : FanState)
    (i : String) (hid : e.id = some i)
    (h : ∀ p ∈ s.recent, p.1 = i → DUPLICATE_WINDOW_MS ≤ now - p.2) :
    isDuplicate now e s = false := by
  unfold isDuplicate
  rw [hid]
  show (match lookupRecent s.recent i with
        | some t => decide (now - t < DUPLICATE_WINDOW_MS)
        | none => false) = false
  cases hl : lookupRecent s.recent i with
  | none => rfl
  | some t =>
    show decide (now - t < DUPLICATE_WINDOW_MS) = false
    exact decide_eq_false (not_lt.mpr (h _ (lookupRecent_mem hl) rfl))

def c4DemoParse : List Nat → Option WEvent := fun bs =>
  if bs = [97, 97] then some { type := "file_touch", session_id := "s", ts := 1 }
  else if bs = [98] then some { type := "file_touch", session_id := "s", ts := 2 }
  else none

def c4FileA : List Nat := [97, 97, 10]
def c4FileB : List Nat := [98, 10]

/-- Append `aa\n`, deliver it; truncate and append `b\n` within the
5-second window; signals at t=0 ms, 1000 ms, 2000 ms. -/
def c4DemoTrace : List SysAct :=
  [.read c4FileA 0, .fireImmediate, .read c4FileB 1000,
   .read c4FileB 2000, .fireImmediate]

/-- C4 counterexample: after truncation-and-append inside the 5-second
window, the watcher does re-emit the new line with id `file_watcher:0`
(third entry of the emission trace), but the fan-out recent-id filter
drops it, so the only delivered events are the pre-rotation event and the
reset marker — the new line is never delivered to any client, contrary to
the claim. -/
theorem c4_redelivery_counterexample :
    ((sysRun c4DemoParse sysInit c4DemoTrace).wEmitted.map (fun e => e.id)
      = [some "file_watcher:0", some "file_watcher:2",
         some "file_watcher:0"]) ∧
    ((sysRun c4DemoParse sysInit c4DemoTrace).fan.delivered.flatten.map
        (fun e => e.id)
      = [some "file_watcher:0", some "file_watcher:2"]) ∧
    ((sysRun c4DemoParse sysInit c4DemoTrace).fan.delivered.flatten.map
        (fun e => e.reason)
      = [none, some "File truncated or rotated"]) ∧
    (sysRun c4DemoParse sysInit c4DemoTrace).fan.queue = [] := by
  decide

/-- Admission into an idle fan-out (empty queue, no pending callbacks):
the leading-edge branch enqueues the event and schedules an immediate. -/
theorem broadcastEvent_leading (now : Int) (e : WEvent) (s : FanState)
    (hdup : isDuplicate now e s = false)
    (hq : s.queue = []) (hbt : s.batchTimer = false)
    (him : s.immediateScheduled = false) :
    broadcastEvent now e s
      = { s with recent := recentAfter now e s, queue := [e],
                 immediateScheduled := true } := by
  rw [broadcastEvent_not_dup now e s hdup,
    admitToQueue_under now e s (by rw [hq]; decide)]
  rw [scheduleAfterPush_leading
    { s with recent := recentAfter now e s, queue := s.queue ++ [e] }
    (by simp [hq]) hbt him]
  simp [hq]

/-- Admission into a fan-out with a nonempty sub-ceiling queue and a
pending immediate: the event is enqueued and no new flush is scheduled. -/
theorem broadcastEvent_pending (now : Int) (e : WEvent) (s : FanState)
    (hdup : isDuplicate now e s = false)
    (hq : s.queue ≠ []) (hlen : s.queue.length + 1 < MAX_BATCH_SIZE)
    (him : s.immediateScheduled = true) :
    broadcastEvent now e s
      = { s with recent := recentAfter now e s, queue := s.queue ++ [e] } := by
  have hqlt : s.queue.length < MAX_QUEUE_SIZE := by
    have h2 : MAX_BATCH_SIZE = 100 := rfl
    have h3 : MAX_QUEUE_SIZE = 1000 := rfl
    omega
  rw [broadcastEvent_not_dup now e s hdup, admitToQueue_under now e s hqlt]
  rw [scheduleAfterPush_pending
    { s with recent := recentAfter now e s, queue := s.queue ++ [e] }
    (by
      show (s.queue ++ [e]).length ≠ 1
      rw [List.length_append]
      have := List.length_pos.mpr hq
      simp only [List.length_cons, List.length_nil]
      omega)
    (by
      show (s.queue ++ [e]).length < MAX_BATCH_SIZE
      rw [List.length_append]
      simpa using hlen)
    him]

/-- Reading one fresh complete line from offset 0 with empty carry and
seen set emits exactly one event with id `file_watcher:0`. -/
theorem readCore_fresh_line (parse : List Nat → Option WEvent) (now : Int)
    (line : List Nat) (ev : WEvent) (s : WatchState)
    (hoff : s.lastOffset = 0) (hcarry : s.carry = []) (hseen : s.seen = [])
    (hnl : ¬ 10 ∈ line)
    (htrim : trimBytes (line ++ [10]) ≠ [])
    (hparse : parse (trimBytes (line ++ [10])) = some ev) :
    readCore parse now (line ++ [10]) s
      = ({ s with lastOffset := ((line ++ [10]).length : Int)
                  lastEmittedOffset := 0
                  carry := []
                  seen := ["file_watcher:0"] },
         [{ ev with id := some "file_watcher:0"
                    ingest_path := some "watcher" }]) := by
  have hlpos : 0 < (line ++ [10]).length := by simp
  simp only [readCore, hoff, hcarry, hseen]
  rw [if_neg (by
      push_cast
      omega),
    if_neg (by
      push_cast
      omega)]
  rw [show ((0 : Int)).toNat = 0 from rfl, List.drop_zero,
    List.nil_append, splitLines_single line hnl]
  simp only [withStarts, List.length_nil, Nat.cast_zero, sub_zero]
  rw [emitLoop_single_fresh parse (line ++ [10]) 0 [] _ (by simp) htrim,
    hparse]
  have h0 : mkEventId 0 = "file_watcher:0" := by decide
  rw [h0]
  simp

/-- C4 amended: if the log is truncated (the change signal observes a
size below `lastOffset`) the watcher clears carry and seen, resets both
offsets to 0, and enqueues exactly one reset marker; and the subsequently
appended line is delivered to clients with id `file_watcher:0` — provided
no event with id `file_watcher:0` was admitted to the fan-out within the
preceding 5000 ms (otherwise the recent-id filter drops it, see the
counterexample trace). -/
theorem c4_amended_rotation (parse : List Nat → Option WEvent)
    (s : SysState) (line : List Nat) (ev : WEvent) (now1 now2 : Int)
    (hsize : (((line ++ [10]).length : Nat) : Int) < s.w.lastOffset)
    (hnl : ¬ 10 ∈ line)
    (htrim : trimBytes (line ++ [10]) ≠ [])
    (hparse : parse (trimBytes (line ++ [10])) = some ev)
    (hq : s.fan.queue = [])
    (hbt : s.fan.batchTimer = false)
    (him : s.fan.immediateScheduled = false)
    (hrec0 : ∀ p ∈ s.fan.recent, p.1 = "file_watcher:0" →
      DUPLICATE_WINDOW_MS ≤ now2 - p.2)
    (hrecM : ∀ p ∈ s.fan.recent,
      p.1 = mkEventId (((line ++ [10]).length : Nat) : Int) →
      DUPLICATE_WINDOW_MS ≤ now1 - p.2)
    (hneM : mkEventId (((line ++ [10]).length : Nat) : Int)
      ≠ "file_watcher:0") :
    (readCore parse now1 (line ++ [10]) s.w).1.carry = [] ∧
    (readCore parse now1 (line ++ [10]) s.w).1.seen = [] ∧
    (readCore parse now1 (line ++ [10]) s.w).1.lastOffset = 0 ∧
    (readCore parse now1 (line ++ [10]) s.w).1.lastEmittedOffset = 0 ∧
    (readCore parse now1 (line ++ [10]) s.w).2
      = [resetMarker now1 (((line ++ [10]).length : Nat) : Int)] ∧
    (sysRun parse s [.read (line ++ [10]) now1, .read (line ++ [10]) now2,
        .fireImmediate]).fan.delivered
      = s.fan.delivered ++
        [[resetMarker now1 (((line ++ [10]).length : Nat) : Int),
          { ev with id := some "file_watcher:0"
                    ingest_path := some "watcher" }]] := by
  have hread1 : readCore parse now1 (line ++ [10]) s.w
      = ({ s.w with lastOffset := 0, lastEmittedOffset := 0,
                    carry := [], seen := [] },
         [resetMarker now1 (((line ++ [10]).length : Nat) : Int)]) := by
    simp only [readCore]
    rw [if_pos hsize]
  have hMid : (resetMarker now1 (((line ++ [10]).length : Nat) : Int)).id
      = some (mkEventId (((line ++ [10]).length : Nat) : Int)) := rfl
  have hdupM : isDuplicate now1
      (resetMarker now1 (((line ++ [10]).length : Nat) : Int)) s.fan
        = false :=
    isDuplicate_false_of_fresh now1 _ s.fan _ hMid hrecM
  have hs1 : sysStep parse s (.read (line ++ [10]) now1)
      = { w := { s.w with lastOffset := 0, lastEmittedOffset := 0,
                          carry := [], seen := [] }
          fan := { s.fan with
            recent := recentAfter now1
              (resetMarker now1 (((line ++ [10]).length : Nat) : Int)) s.fan
            queue := [resetMarker now1 (((line ++ [10]).length : Nat) : Int)]
            immediateScheduled := true }
          wEmitted := s.wEmitted
            ++ [resetMarker now1 (((line ++ [10]).length : Nat) : Int)] } := by
    simp only [sysStep]
    rw [hread1]
    simp only [List.foldl_cons, List.foldl_nil]
    rw [broadcastEvent_leading now1 _ s.fan hdupM hq hbt him]
  rw [show sysRun parse s [.read (line ++ [10]) now1,
      .read (line ++ [10]) now2, .fireImmediate]
    = sysStep parse (sysStep parse (sysStep parse s
        (.read (line ++ [10]) now1)) (.read (line ++ [10]) now2))
        .fireImmediate from rfl, hs1]
  have hread2 := readCore_fresh_line parse now2 line ev
    { s.w with lastOffset := 0, lastEmittedOffset := 0,
               carry := [], seen := [] }
    rfl rfl rfl hnl htrim hparse
  have hdup2 : isDuplicate now2
      { ev with id := some "file_watcher:0", ingest_path := some "watcher" }
      { s.fan with
        recent := recentAfter now1
          (resetMarker now1 (((line ++ [10]).length : Nat) : Int)) s.fan
        queue := [resetMarker now1 (((line ++ [10]).length : Nat) : Int)]
        immediateScheduled := true } = false := by
    apply isDuplicate_false_of_fresh now2 _ _ "file_watcher:0" rfl
    intro p hp hpid
    have hp1 : p ∈ setRecent s.fan.recent
        (mkEventId (((line ++ [10]).length : Nat) : Int)) now1 :=
      mem_cleanupRecent (by simpa [recentAfter, hMid] using hp)
    rcases mem_setRecent hp1 with hp2 | hp2
    · exact absurd (by rw [← hpid, hp2]) hneM
    · exact hrec0 p hp2 hpid
  have hs2 : sysStep parse
      { w := { s.w with lastOffset := 0, lastEmittedOffset := 0,
                        carry := [], seen := [] }
        fan := { s.fan with
          recent := recentAfter now1
            (resetMarker now1 (((line ++ [10]).length : Nat) : Int)) s.fan
          queue := [resetMarker now1 (((line ++ [10]).length : Nat) : Int)]
          immediateScheduled := true }
        wEmitted := s.wEmitted
          ++ [resetMarker now1 (((line ++ [10]).length : Nat) : Int)] }
      (.read (line ++ [10]) now2)
      = { w := { s.w with
            lastOffset := (((line ++ [10]).length : Nat) : Int)
            lastEmittedOffset := 0
            carry := []
            seen := ["file_watcher:0"] }
          fan := { s.fan with
            recent := recentAfter now2
              { ev with id := some "file_watcher:0"
                        ingest_path := some "watcher" }
              { s.fan with
                recent := recentAfter now1
                  (resetMarker now1
                    (((line ++ [10]).length : Nat) : Int)) s.fan
                queue := [resetMarker now1
                  (((line ++ [10]).length : Nat) : Int)]
                immediateScheduled := true }
            queue := [resetMarker now1 (((line ++ [10]).length : Nat) : Int),
              { ev with id := some "file_watcher:0"
                        ingest_path := some "watcher" }]
            immediateScheduled := true }
          wEmitted := (s.wEmitted
            ++ [resetMarker now1 (((line ++ [10]).length : Nat) : Int)])
            ++ [{ ev with id := some "file_watcher:0"
                          ingest_path := some "watcher" }] } := by
    simp only [sysStep]
    rw [hread2]
    simp only [List.foldl_cons, List.foldl_nil]
    rw [broadcastEvent_pending now2 _ _ hdup2 (by simp)
      (by
        show ([resetMarker now1
          (((line ++ [10]).length : Nat) : Int)]).length + 1 < MAX_BATCH_SIZE
        simp [MAX_BATCH_SIZE])
      rfl]
    simp
  rw [hs2]
  refine ⟨by rw [hread1], by rw [hread1], by rw [hread1], by rw [hread1],
    by rw [hread1], ?_⟩
  simp only [sysStep]
  exact (flushBatch_small _ (by simp) (by
    show ([resetMarker now1 (((line ++ [10]).length : Nat) : Int),
      { ev with id := some "file_watcher:0"
                ingest_path := some "watcher" }]).length ≤ MAX_BATCH_SIZE
    simp [MAX_BATCH_SIZE])).1

def c4WitState : SysState :=
  { w := { lastOffset := 3, lastEmittedOffset := 0 }
    fan := { recent := [("file_watcher:0", 0)] } }

/-- Witness for the amended C4: truncate from offset 3 and append `b\n`,
with signals at 6000 ms and 7000 ms, outside the 5-second window of the
prior `file_watcher:0` admission at 0 ms — the new line is delivered. -/
theorem c4_amended_rotation_witness :
    (sysRun c4DemoParse c4WitState
        [.read ([98] ++ [10]) 6000, .read ([98] ++ [10]) 7000,
         .fireImmediate]).fan.delivered
      = c4WitState.fan.delivered ++
        [[resetMarker 6000 ((([98] ++ [10]).length : Nat) : Int),
          { ({ type := "file_touch", session_id := "s", ts := 2 } : WEvent) with
              id := some "file_watcher:0"
              ingest_path := some "watcher" }]] :=
  (c4_amended_rotation c4DemoParse c4WitState [98]
    { type := "file_touch", session_id := "s", ts := 2 } 6000 7000
    (by decide) (by decide) (by decide) (by decide) rfl rfl rfl
    (by decide) (by decide) (by decide)).2.2.2.2.2

/-! ### Claim C5: id uniqueness within a generation -/

/-- The canonical ids carried by a list of events. -/
def idsOf (l : List WEvent) : List String := l.filterMap (fun e => e.id)

/-- What one emit loop guarantees: the seen set only grows, every emitted
event carries an id that is recorded in the final seen set and was not in
the initial one, and the emitted ids are pairwise distinct. -/
theorem emitLoop_spec (parse : List Nat → Option WEvent) :
    ∀ (lines : List (List Nat × Int)) (seen : List String) (le : Int),
      (∀ i ∈ seen, i ∈ (emitLoop parse lines seen le).1) ∧
      (∀ ev ∈ (emitLoop parse lines seen le).2.2,
        ∃ i, ev.id = some i ∧ i ∈ (emitLoop parse lines seen le).1 ∧
          i ∉ seen) ∧
      (idsOf (emitLoop parse lines seen le).2.2).Nodup
  | [], seen, le => by
    refine ⟨fun i hi => hi, ?_, ?_⟩ <;> simp [emitLoop, idsOf]
  | (line, off) :: rest, seen, le => by
    by_cases hseen : mkEventId off ∈ seen
    · have heq : emitLoop parse ((line, off) :: rest) seen le
          = emitLoop parse rest seen le := by
        conv_lhs => rw [emitLoop]
        simp only []
        rw [if_pos hseen]
      rw [heq]
      exact emitLoop_spec parse rest seen le
    · by_cases hblank : trimBytes line = []
      · have heq : emitLoop parse ((line, off) :: rest) seen le
            = emitLoop parse rest (mkEventId off :: seen) le := by
          conv_lhs => rw [emitLoop]
          simp only []
          rw [if_neg hseen, if_pos hblank]
        rw [heq]
        obtain ⟨h1, h2, h3⟩ :=
          emitLoop_spec parse rest (mkEventId off :: seen) le
        refine ⟨fun i hi => h1 i (List.mem_cons_of_mem _ hi), ?_, h3⟩
        intro ev hev
        obtain ⟨i, hi1, hi2, hi3⟩ := h2 ev hev
        exact ⟨i, hi1, hi2, fun hc => hi3 (List.mem_cons_of_mem _ hc)⟩
      · cases hparse : parse (trimBytes line) with
        | none =>
          have heq : emitLoop parse ((line, off) :: rest) seen le
              = emitLoop parse rest seen le := by
            conv_lhs => rw [emitLoop]
            simp only []
            rw [if_neg hseen, if_neg hblank, hparse,
              List.erase_cons_head]
          rw [heq]
          exact emitLoop_spec parse rest seen le
        | some ev0 =>
          have heq : emitLoop parse ((line, off) :: rest) seen le
              = ((emitLoop parse rest (mkEventId off :: seen) off).1,
                 (emitLoop parse rest (mkEventId off :: seen) off).2.1,
                 { ev0 with id := some (mkEventId off)
                            ingest_path := some "watcher" }
                   :: (emitLoop parse rest (mkEventId off :: seen) off).2.2)
              := by
            conv_lhs => rw [emitLoop]
            simp only []
            rw [if_neg hseen, if_neg hblank, hparse]
          rw [heq]
          obtain ⟨h1, h2, h3⟩ :=
            emitLoop_spec parse rest (mkEventId off :: seen) off
          refine ⟨fun i hi => h1 i (List.mem_cons_of_mem _ hi), ?_, ?_⟩
          · intro ev hev
            rcases List.mem_cons.mp hev with hev | hev
            · exact ⟨mkEventId off, by rw [hev], h1 _ (by simp), hseen⟩
            · obtain ⟨i, hi1, hi2, hi3⟩ := h2 ev hev
              exact ⟨i, hi1, hi2, fun hc => hi3 (List.mem_cons_of_mem _ hc)⟩
          · show (idsOf ({ ev0 with id := some (mkEventId off)
                                    ingest_path := some "watcher" }
              :: (emitLoop parse rest (mkEventId off :: seen) off).2.2)).Nodup
            have hids : idsOf ({ ev0 with id := some (mkEventId off)
                                          ingest_path := some "watcher" }
                :: (emitLoop parse rest (mkEventId off :: seen) off).2.2)
                = mkEventId off
                  :: idsOf (emitLoop parse rest
                      (mkEventId off :: seen) off).2.2 := by
              simp [idsOf]
            rw [hids]
            refine List.Nodup.cons ?_ h3
            intro hc
            obtain ⟨ev1, hev1, hid1⟩ := List.mem_filterMap.mp hc
            obtain ⟨i, hi1, hi2, hi3⟩ := h2 ev1 hev1
            rw [hi1] at hid1
            exact hi3 (by
              rw [show i = mkEventId off from (Option.some.inj hid1)]
              simp)

/-- `readCore` on a non-truncating signal: seen grows, emitted ids are
fresh, recorded, and pairwise distinct. -/
theorem readCore_spec (parse : List Nat → Option WEvent) (now : Int)
    (file : List Nat) (s : WatchState)
    (hsize : ¬ ((file.length : Int) < s.lastOffset)) :
    (∀ i ∈ s.seen, i ∈ (readCore parse now file s).1.seen) ∧
    (∀ ev ∈ (readCore parse now file s).2,
      ∃ i, ev.id = some i ∧ i ∈ (readCore parse now file s).1.seen ∧
        i ∉ s.seen) ∧
    (idsOf (readCore parse now file s).2).Nodup := by
  by_cases hle : (file.length : Int) ≤ s.lastOffset
  · have heq : readCore parse now file s = (s, []) := by
      unfold readCore
      rw [if_neg hsize, if_pos hle]
    rw [heq]
    exact ⟨fun i hi => hi, by simp, by simp [idsOf]⟩
  · have heq : readCore parse now file s
        = (let framed := splitLines (s.carry ++ file.drop s.lastOffset.toNat)
           let lws := withStarts (s.lastOffset - s.carry.length) framed.1
           let r := emitLoop parse lws s.seen s.lastEmittedOffset
           ({ s with
              lastOffset :=
                match lws.getLast? with
                | some le => le.2 + le.1.length
                | none => s.lastOffset
              carry := framed.2
              seen := r.1
              lastEmittedOffset := r.2.1 },
            r.2.2)) := by
      unfold readCore
      rw [if_neg hsize, if_neg hle]
    rw [heq]
    exact emitLoop_spec parse _ s.seen s.lastEmittedOffset

theorem flushBatch_qlen (s : FanState)
    (h : s.queue.length < MAX_BATCH_SIZE) :
    (flushBatch s).queue.length < MAX_BATCH_SIZE := by
  by_cases hq : s.queue = []
  · have heq : flushBatch s = s := by
      unfold flushBatch
      rw [hq]
      rfl
    rw [heq]
    exact h
  · exact flushBatch_len s hq

theorem broadcastEvent_qlen (now : Int) (e : WEvent) (s : FanState)
    (h : s.queue.length < MAX_BATCH_SIZE) :
    (broadcastEvent now e s).queue.length < MAX_BATCH_SIZE := by
  by_cases hdup : isDuplicate now e s = true
  · rw [broadcastEvent_drop now e s hdup]
    exact h
  · have hdup' : isDuplicate now e s = false := by
      cases hd : isDuplicate now e s
      · rfl
      · exact absurd hd hdup
    have hqlt : s.queue.length < MAX_QUEUE_SIZE := by
      have h2 : MAX_BATCH_SIZE = 100 := rfl
      have h3 : MAX_QUEUE_SIZE = 1000 := rfl
      omega
    rw [broadcastEvent_not_dup now e s hdup',
      admitToQueue_under now e s hqlt]
    unfold scheduleAfterPush
    split_ifs with h1 h2 h3
    · show (s.queue ++ [e]).length < MAX_BATCH_SIZE
      rw [h1.1]
      decide
    · apply flushBatch_len
      intro hc
      rw [hc] at h2
      exact absurd h2 (by decide)
    · show (s.queue ++ [e]).length < MAX_BATCH_SIZE
      have h2' : ¬ ((s.queue ++ [e]).length ≥ MAX_BATCH_SIZE) := h2
      omega
    · show (s.queue ++ [e]).length < MAX_BATCH_SIZE
      have h2' : ¬ ((s.queue ++ [e]).length ≥ MAX_BATCH_SIZE) := h2
      omega

/-- Counting effect of one admission: the delivered-or-queued id counts
grow by at most the admitted event's ids. -/
theorem broadcastEvent_count (now : Int) (e : WEvent) (s : FanState)
    (h : s.queue.length < MAX_BATCH_SIZE) (i : String) :
    (idsOf ((broadcastEvent now e s).delivered.flatten
        ++ (broadcastEvent now e s).queue)).count i
      ≤ (idsOf (s.delivered.flatten ++ s.queue)).count i
        + (idsOf [e]).count i := by
  by_cases hdup : isDuplicate now e s = true
  · rw [broadcastEvent_drop now e s hdup]
    omega
  · have hdup' : isDuplicate now e s = false := by
      cases hd : isDuplicate now e s
      · rfl
      · exact absurd hd hdup
    have hqlt : s.queue.length < MAX_QUEUE_SIZE := by
      have h2 : MAX_BATCH_SIZE = 100 := rfl
      have h3 : MAX_QUEUE_SIZE = 1000 := rfl
      omega
    rw [broadcastEvent_join now e s hdup' hqlt]
    rw [show s.delivered.flatten ++ s.queue ++ [e]
      = (s.delivered.flatten ++ s.queue) ++ [e] from by
        rw [List.append_assoc]]
    unfold idsOf
    rw [List.filterMap_append, List.count_append]

theorem foldl_broadcast_count (now : Int) :
    ∀ (evs : List WEvent) (f : FanState),
      f.queue.length < MAX_BATCH_SIZE →
      ((evs.foldl (fun g ev => broadcastEvent now ev g) f).queue.length
          < MAX_BATCH_SIZE) ∧
      ∀ i, (idsOf ((evs.foldl (fun g ev => broadcastEvent now ev g)
            f).delivered.flatten
          ++ (evs.foldl (fun g ev => broadcastEvent now ev g) f).queue)).count i
        ≤ (idsOf (f.delivered.flatten ++ f.queue)).count i
          + (idsOf evs).count i
  | [], f, h => ⟨h, fun i => by simp [idsOf]⟩
  | ev :: evs, f, h => by
    obtain ⟨hq1, hc1⟩ := foldl_broadcast_count now evs
      (broadcastEvent now ev f) (broadcastEvent_qlen now ev f h)
    refine ⟨hq1, fun i => ?_⟩
    calc (idsOf ((evs.foldl (fun g ev => broadcastEvent now ev g)
            (broadcastEvent now ev f)).delivered.flatten ++ _)).count i
        ≤ (idsOf ((broadcastEvent now ev f).delivered.flatten
            ++ (broadcastEvent now ev f).queue)).count i
          + (idsOf evs).count i := hc1 i
      _ ≤ ((idsOf (f.delivered.flatten ++ f.queue)).count i
            + (idsOf [ev]).count i) + (idsOf evs).count i := by
          have := broadcastEvent_count now ev f h i
          omega
      _ = (idsOf (f.delivered.flatten ++ f.queue)).count i
            + (idsOf (ev :: evs)).count i := by
          have h5 : (idsOf (ev :: evs)).count i
              = (idsOf [ev]).count i + (idsOf evs).count i := by
            have h6 : (idsOf ([ev] ++ evs)).count i
                = (idsOf [ev]).count i + (idsOf evs).count i := by
              unfold idsOf
              rw [List.filterMap_append, List.count_append]
            simpa using h6
          omega

/-- The rolling invariant for claim C5: every id the watcher has emitted
this generation is recorded in `seen`; the emitted ids are pairwise
distinct; the delivered-or-queued ids are bounded by the emission counts;
and the fan-out queue stays below the batch ceiling. -/
structure C5Inv (s : SysState) : Prop where
  seenSup : ∀ i ∈ idsOf s.wEmitted, i ∈ s.w.seen
  emNodup : (idsOf s.wEmitted).Nodup
  count : ∀ i, (idsOf (s.fan.delivered.flatten ++ s.fan.queue)).count i
    ≤ (idsOf s.wEmitted).count i
  qlen : s.fan.queue.length < MAX_BATCH_SIZE

theorem c5Inv_init : C5Inv sysInit := by
  refine ⟨?_, ?_, ?_, ?_⟩ <;> simp [sysInit, idsOf, fanInit, MAX_BATCH_SIZE]

/-- A trace is truncation-free when no read in it observes a size below
the watcher offset (the condition that would start a new generation). -/
def noTrunc (parse : List Nat → Option WEvent) :
    SysState → List SysAct → Bool
  | _, [] => true
  | s, a :: rest =>
    (match a with
     | .read file _ => decide (s.w.lastOffset ≤ (file.length : Int))
     | _ => true) && noTrunc parse (sysStep parse s a) rest

theorem c5Inv_run (parse : List Nat → Option WEvent) :
    ∀ (tr : List SysAct) (s : SysState), C5Inv s →
      noTrunc parse s tr = true → C5Inv (sysRun parse s tr)
  | [], s, h, _ => h
  | a :: rest, s, h, htr => by
    obtain ⟨ha, htr'⟩ := Bool.and_eq_true_iff.mp htr
    refine c5Inv_run parse rest (sysStep parse s a) ?_ htr'
    cases a with
    | read file now =>
      have hsize : ¬ ((file.length : Int) < s.w.lastOffset) :=
        not_lt.mpr (of_decide_eq_true ha)
      obtain ⟨hgrow, hfresh, hnodup⟩ := readCore_spec parse now file s.w hsize
      obtain ⟨hq1, hc1⟩ := foldl_broadcast_count now
        (readCore parse now file s.w).2 s.fan h.qlen
      refine ⟨?_, ?_, ?_, hq1⟩
      · show ∀ i ∈ idsOf (s.wEmitted ++ (readCore parse now file s.w).2),
          i ∈ (readCore parse now file s.w).1.seen
        intro i hi
        rw [idsOf, List.filterMap_append] at hi
        rcases List.mem_append.mp hi with hi | hi
        · exact hgrow i (h.seenSup i hi)
        · obtain ⟨ev, hev, hid⟩ := List.mem_filterMap.mp hi
          obtain ⟨j, hj1, hj2, _⟩ := hfresh ev hev
          rw [hj1] at hid
          rw [← Option.some.inj hid]
          exact hj2
      · show (idsOf (s.wEmitted ++ (readCore parse now file s.w).2)).Nodup
        rw [idsOf, List.filterMap_append]
        refine List.Nodup.append h.emNodup hnodup ?_
        intro i hi1 hi2
        obtain ⟨ev, hev, hid⟩ := List.mem_filterMap.mp hi2
        obtain ⟨j, hj1, _, hj3⟩ := hfresh ev hev
        rw [hj1] at hid
        rw [← Option.some.inj hid] at hi1
        exact hj3 (h.seenSup j hi1)
      · intro i
        have h3 := h.count i
        have h2 : (idsOf ((sysStep parse s
              (.read file now)).fan.delivered.flatten
            ++ (sysStep parse s (.read file now)).fan.queue)).count i
          ≤ (idsOf (s.fan.delivered.flatten ++ s.fan.queue)).count i
            + (idsOf (readCore parse now file s.w).2).count i := hc1 i
        have h4 : (idsOf (s.wEmitted ++ (readCore parse now file s.w).2)).count i
            = (idsOf s.wEmitted).count i
              + (idsOf (readCore parse now file s.w).2).count i := by
          unfold idsOf
          rw [List.filterMap_append, List.count_append]
        show (idsOf ((sysStep parse s (.read file now)).fan.delivered.flatten
            ++ (sysStep parse s (.read file now)).fan.queue)).count i
          ≤ (idsOf (s.wEmitted ++ (readCore parse now file s.w).2)).count i
        rw [h4]
        omega
    | fireTimer =>
      refine ⟨h.seenSup, h.emNodup, ?_, flushBatch_qlen s.fan h.qlen⟩
      intro i
      have hj := flushBatch_join s.fan
      show (idsOf ((flushBatch s.fan).delivered.flatten
          ++ (flushBatch s.fan).queue)).count i ≤ (idsOf s.wEmitted).count i
      rw [hj]
      exact h.count i
    | fireImmediate =>
      refine ⟨h.seenSup, h.emNodup, ?_,
        flushBatch_qlen { s.fan with immediateScheduled := false } h.qlen⟩
      intro i
      have hj := flushBatch_join { s.fan with immediateScheduled := false }
      show (idsOf ((flushBatch
            { s.fan with immediateScheduled := false }).delivered.flatten
          ++ (flushBatch
            { s.fan with immediateScheduled := false }).queue)).count i
        ≤ (idsOf s.wEmitted).count i
      rw [hj]
      exact h.count i

theorem emitLoop_skip (parse : List Nat → Option WEvent)
    (line : List Nat) (off : Int) (rest : List (List Nat × Int))
    (seen : List String) (le : Int) (hseen : mkEventId off ∈ seen) :
    emitLoop parse ((line, off) :: rest) seen le
      = emitLoop parse rest seen le := by
  conv_lhs => rw [emitLoop]
  simp only []
  rw [if_pos hseen]

theorem emitLoop_parse_fail (parse : List Nat → Option WEvent)
    (line : List Nat) (off : Int) (rest : List (List Nat × Int))
    (seen : List String) (le : Int) (hseen : mkEventId off ∉ seen)
    (hblank : trimBytes line ≠ [])
    (hp : parse (trimBytes line) = none) :
    emitLoop parse ((line, off) :: rest) seen le
      = emitLoop parse rest
          ((mkEventId off :: seen).erase (mkEventId off)) le := by
  conv_lhs => rw [emitLoop]
  simp only []
  rw [if_neg hseen, if_neg hblank, hp]

theorem emitLoop_parse_ok (parse : List Nat → Option WEvent)
    (line : List Nat) (off : Int) (rest : List (List Nat × Int))
    (seen : List String) (le : Int) (ev : WEvent)
    (hseen : mkEventId off ∉ seen) (hblank : trimBytes line ≠ [])
    (hp : parse (trimBytes line) = some ev) :
    emitLoop parse ((line, off) :: rest) seen le
      = ((emitLoop parse rest (mkEventId off :: seen) off).1,
         (emitLoop parse rest (mkEventId off :: seen) off).2.1,
         { ev with id := some (mkEventId off)
                   ingest_path := some "watcher" }
           :: (emitLoop parse rest (mkEventId off :: seen) off).2.2) := by
  conv_lhs => rw [emitLoop]
  simp only []
  rw [if_neg hseen, if_neg hblank, hp]

/-- The conclusion of claim C5: every canonical id appears at most once
in the watcher's emitted stream and at most once in the client's
delivered stream, and the per-line loop skips already-seen ids without
parsing, records an id before parsing, and removes it again when the
parse fails. -/
def C5Conclusion (parse : List Nat → Option WEvent) (s : SysState) : Prop :=
  (idsOf s.wEmitted).Nodup ∧
  (idsOf s.fan.delivered.flatten).Nodup ∧
  (∀ (line : List Nat) (off : Int) (rest : List (List Nat × Int))
      (seen : List String) (le : Int), mkEventId off ∈ seen →
    emitLoop parse ((line, off) :: rest) seen le
      = emitLoop parse rest seen le) ∧
  (∀ (line : List Nat) (off : Int) (rest : List (List Nat × Int))
      (seen : List String) (le : Int), mkEventId off ∉ seen →
    trimBytes line ≠ [] → parse (trimBytes line) = none →
    emitLoop parse ((line, off) :: rest) seen le
      = emitLoop parse rest
          ((mkEventId off :: seen).erase (mkEventId off)) le) ∧
  (∀ (line : List Nat) (off : Int) (rest : List (List Nat × Int))
      (seen : List String) (le : Int) (ev : WEvent), mkEventId off ∉ seen →
    trimBytes line ≠ [] → parse (trimBytes line) = some ev →
    emitLoop parse ((line, off) :: rest) seen le
      = ((emitLoop parse rest (mkEventId off :: seen) off).1,
         (emitLoop parse rest (mkEventId off :: seen) off).2.1,
         { ev with id := some (mkEventId off)
                   ingest_path := some "watcher" }
           :: (emitLoop parse rest (mkEventId off :: seen) off).2.2))

/-- C5: within one generation of the watcher — a truncation-free run
from the initial state — no canonical id is emitted twice: the watcher's
emitted stream and the flattened delivered stream each contain every id
at most once; a line whose id is already in the seen set is skipped
without parsing; the id is inserted into the seen set before parsing and
removed from it when the parse fails. -/
theorem c5_id_uniqueness (parse : List Nat → Option WEvent)
    (tr : List SysAct) (htr : noTrunc parse sysInit tr = true) :
    C5Conclusion parse (sysRun parse sysInit tr) := by
  have hinv := c5Inv_run parse tr sysInit c5Inv_init htr
  refine ⟨hinv.emNodup, ?_, ?_, ?_, ?_⟩
  · rw [List.nodup_iff_count_le_one]
    intro i
    have h1 := hinv.count i
    have h2 := List.nodup_iff_count_le_one.mp hinv.emNodup i
    have hsplit : (idsOf ((sysRun parse sysInit tr).fan.delivered.flatten
        ++ (sysRun parse sysInit tr).fan.queue)).count i
      = (idsOf (sysRun parse sysInit tr).fan.delivered.flatten).count i
        + (idsOf (sysRun parse sysInit tr).fan.queue).count i := by
      unfold idsOf
      rw [List.filterMap_append, List.count_append]
    omega
  · exact fun line off rest seen le hseen =>
      emitLoop_skip parse line off rest seen le hseen
  · exact fun line off rest seen le hseen hblank hp =>
      emitLoop_parse_fail parse line off rest seen le hseen hblank hp
  · exact fun line off rest seen le ev hseen hblank hp =>
      emitLoop_parse_ok parse line off rest seen le ev hseen hblank hp

def c5WitParse : List Nat → Option WEvent :=
  fun l => if l = [104, 105] then
    some { type := "file_touch", session_id := "s1", ts := 5 } else none

def c5WitTrace : List SysAct := [.read [104, 105, 10] 0, .fireImmediate]

theorem c5_id_uniqueness_witness :
    noTrunc c5WitParse sysInit c5WitTrace = true ∧
    C5Conclusion c5WitParse (sysRun c5WitParse sysInit c5WitTrace) :=
  ⟨by decide, c5_id_uniqueness c5WitParse c5WitTrace (by decide)⟩

/-! ### Single-flight discipline of `readNewEvents` (claim C7)

`readNewEvents` runs on a single-threaded event loop; between setting
`reading = true` and the completion point of that invocation the awaited
I/O may resolve with new data, reject on `fs.access`, or throw.  The
flight model exposes exactly these interleavings: a `signal` action is a
change notification invoking `readNewEvents`, and a `complete` action is
the resolution of the in-flight body with one of the three outcomes.
`inFlight` and `started` are ghost counters of bodies in flight and of
invocations that actually began a read. -/

inductive ReadOutcome where
  | success (file : List Nat) (now : Int)
  | accessFail
  | ioError
deriving Repr, DecidableEq

inductive FlightAct where
  | signal
  | complete (o : ReadOutcome)
deriving Repr, DecidableEq

structure FlightState where
  w : WatchState := {}
  inFlight : Nat := 0
  started : Nat := 0
deriving Repr, DecidableEq

/-- State effect of one read body, per outcome: a successful stat-and-read
runs `readCore` and resets the error counter only when it reached the
main read path (the truncation and no-data branches return early); a
rejected `fs.access` leaves the state untouched; a thrown error bumps
`consecutiveErrors` and resets the position, with a full state reset once
the counter reaches `MAX_CONSECUTIVE_ERRORS`. -/
def applyOutcome (parse : List Nat → Option WEvent) :
    ReadOutcome → WatchState → WatchState
  | .success file now, w =>
    let w1 := (readCore parse now file w).1
    if (file.length : Int) ≤ w.lastOffset then w1
    else { w1 with consecutiveErrors := 0 }
  | .accessFail, w => w
  | .ioError, w =>
    if MAX_CONSECUTIVE_ERRORS ≤ w.consecutiveErrors + 1 then
      { w with consecutiveErrors := 0, lastOffset := 0,
               lastEmittedOffset := 0, carry := [], seen := [] }
    else
      { w with consecutiveErrors := w.consecutiveErrors + 1,
               lastOffset := 0, carry := [] }

def flightStep (parse : List Nat → Option WEvent) (s : FlightState) :
    FlightAct → FlightState
  | .signal =>
    if s.w.reading then
      -- already reading: mark dirty and return
      { s with w := { s.w with dirty := true } }
    else
      { s with w := { s.w with reading := true },
               inFlight := s.inFlight + 1, started := s.started + 1 }
  | .complete o =>
    if s.w.reading then
      let w1 := applyOutcome parse o s.w
      if s.w.dirty then
        -- dirty was set during the read: clear it and read again
        { s with w := { w1 with reading := true, dirty := false },
                 started := s.started + 1 }
      else
        { s with w := { w1 with reading := false, dirty := false },
                 inFlight := s.inFlight - 1 }
    else s

theorem flightStep_signal (parse : List Nat → Option WEvent)
    (s : FlightState) :
    flightStep parse s .signal
      = if s.w.reading then { s with w := { s.w with dirty := true } }
        else { s with w := { s.w with reading := true },
                      inFlight := s.inFlight + 1,
                      started := s.started + 1 } := rfl

theorem flightStep_complete (parse : List Nat → Option WEvent)
    (s : FlightState) (o : ReadOutcome) :
    flightStep parse s (.complete o)
      = if s.w.reading then
          (if s.w.dirty then
            { s with w := { applyOutcome parse o s.w with
                            reading := true, dirty := false },
                     started := s.started + 1 }
          else
            { s with w := { applyOutcome parse o s.w with
                            reading := false, dirty := false },
                     inFlight := s.inFlight - 1 })
        else s := rfl

def flightInit : FlightState := {}

def flightRun (parse : List Nat → Option WEvent) (s : FlightState)
    (tr : List FlightAct) : FlightState :=
  tr.foldl (flightStep parse) s

def FlightInv (s : FlightState) : Prop :=
  s.inFlight = (if s.w.reading then 1 else 0)

theorem flightStep_inv (parse : List Nat → Option WEvent)
    (s : FlightState) (a : FlightAct) (h : FlightInv s) :
    FlightInv (flightStep parse s a) := by
  unfold FlightInv at h ⊢
  cases a with
  | signal =>
    rw [flightStep_signal]
    by_cases hr : s.w.reading
    · rw [if_pos hr]
      simpa [hr] using h
    · rw [if_neg hr]
      simp [hr] at h
      simp [h]
  | complete o =>
    rw [flightStep_complete]
    by_cases hr : s.w.reading
    · rw [if_pos hr]
      by_cases hd : s.w.dirty
      · rw [if_pos hd]
        simpa [hr] using h
      · rw [if_neg hd]
        simp [hr] at h
        simp [h]
    · rw [if_neg hr]
      exact h

theorem flightRun_inv (parse : List Nat → Option WEvent) :
    ∀ (tr : List FlightAct) (s : FlightState),
      FlightInv s → FlightInv (flightRun parse s tr)
  | [], _, h => h
  | a :: tr, s, h =>
    flightRun_inv parse tr (flightStep parse s a) (flightStep_inv parse s a h)

/-- The conclusion of claim C7: in every reachable state the number of
read bodies in flight is one when `reading` is set and zero otherwise
(so never more than one); a signal during a read only sets `dirty`; a
completion that finds `dirty` set clears it and starts exactly one
further read; a completion that finds `dirty` clear ends the flight. -/
def C7Conclusion (parse : List Nat → Option WEvent) : Prop :=
  (∀ tr : List FlightAct,
    (flightRun parse flightInit tr).inFlight
      = (if (flightRun parse flightInit tr).w.reading then 1 else 0) ∧
    (flightRun parse flightInit tr).inFlight ≤ 1) ∧
  (∀ s : FlightState, s.w.reading = true →
    flightStep parse s .signal
      = { s with w := { s.w with dirty := true } }) ∧
  (∀ (s : FlightState) (o : ReadOutcome),
    s.w.reading = true → s.w.dirty = true →
    (flightStep parse s (.complete o)).w.dirty = false ∧
    (flightStep parse s (.complete o)).w.reading = true ∧
    (flightStep parse s (.complete o)).started = s.started + 1 ∧
    (flightStep parse s (.complete o)).inFlight = s.inFlight) ∧
  (∀ (s : FlightState) (o : ReadOutcome),
    s.w.reading = true → s.w.dirty = false →
    (flightStep parse s (.complete o)).w.reading = false ∧
    (flightStep parse s (.complete o)).started = s.started)

/-- C7: the watcher follows the single-flight discipline — at most one
read is ever in flight; a change signal arriving while `reading` is true
sets `dirty` and returns without touching the rest of the watcher state;
and a read completing (normally, on missing file, or on error) with
`dirty` set clears `dirty` and starts exactly one further read. -/
theorem c7_single_flight (parse : List Nat → Option WEvent) :
    C7Conclusion parse := by
  refine ⟨?_, ?_, ?_, ?_⟩
  · intro tr
    have h := flightRun_inv parse tr flightInit rfl
    unfold FlightInv at h
    refine ⟨h, ?_⟩
    rw [h]
    by_cases hr : (flightRun parse flightInit tr).w.reading
    · rw [if_pos hr]
    · rw [if_neg hr]
      exact Nat.zero_le 1
  · intro s hr
    rw [flightStep_signal, if_pos hr]
  · intro s o hr hd
    rw [flightStep_complete, if_pos hr, if_pos hd]
    exact ⟨rfl, rfl, rfl, rfl⟩
  · intro s o hr hd
    rw [flightStep_complete, if_pos hr,
      if_neg (by rw [hd]; exact Bool.false_ne_true)]
    exact ⟨rfl, rfl⟩

def c7WitParse : List Nat → Option WEvent := fun _ => none

theorem c7_single_flight_witness : C7Conclusion c7WitParse :=
  c7_single_flight c7WitParse

/-! ### JSON values, `parseEvent`, and `validateEvent` (claims C8–C10)

JSON values are embedded as `JVal` with integer numbers (the numeric
fields of events are timestamps and counters).  `serializeEvent` is
`JSON.stringify` and `parseEvent` is `JSON.parse` followed by the shape
check in `events.ts`; `JSON.parse ∘ JSON.stringify` is the identity on
JSON values — a property of the runtime library, not of this repository —
so the serialize-then-parse pipeline applied to an event value hands the
value itself to the shape check, embedded below as `parseEventVal`.
`jsonStringify` embeds `JSON.stringify` (needed for the metadata size
bound); circular structures, the one case where `JSON.stringify` throws,
are not representable in `JVal`.  JS property access `x.f` is `getField`,
`undefined` is `none`, and JS truthiness is `truthy`. -/

inductive JVal where
  | jnull
  | jbool (b : Bool)
  | jnum (n : Int)
  | jstr (s : String)
  | jarr (xs : List JVal)
  | jobj (fields : List (String × JVal))

def lookupField : List (String × JVal) → String → Option JVal
  | [], _ => none
  | (k1, v) :: rest, k => if k1 = k then some v else lookupField rest k

def getField : JVal → String → Option JVal
  | .jobj kvs, k => lookupField kvs k
  | _, _ => none

def truthy : Option JVal → Bool
  | none => false
  | some .jnull => false
  | some (.jbool b) => b
  | some (.jnum n) => decide (n ≠ 0)
  | some (.jstr s) => decide (s ≠ "")
  | some (.jarr _) => true
  | some (.jobj _) => true

def hexDigit (n : Nat) : Char :=
  if n < 10 then Char.ofNat (48 + n) else Char.ofNat (87 + n)

/-- The escaping `JSON.stringify` applies inside string literals. -/
def jsonEscape (c : Char) : List Char :=
  if c = '"' then ['\\', '"']
  else if c = '\\' then ['\\', '\\']
  else if c = '\x08' then ['\\', 'b']
  else if c = '\x0c' then ['\\', 'f']
  else if c = '\n' then ['\\', 'n']
  else if c = '\r' then ['\\', 'r']
  else if c = '\t' then ['\\', 't']
  else if c.toNat < 32 then
    ['\\', 'u', '0', '0', hexDigit (c.toNat / 16), hexDigit (c.toNat % 16)]
  else [c]

def jsonStr (s : String) : List Char :=
  '"' :: s.toList.flatMap jsonEscape ++ ['"']

mutual

def jsonStringify : JVal → List Char
  | .jnull => ['n', 'u', 'l', 'l']
  | .jbool true => ['t', 'r', 'u', 'e']
  | .jbool false => ['f', 'a', 'l', 's', 'e']
  | .jnum n => (toString n).toList
  | .jstr s => jsonStr s
  | .jarr xs => '[' :: jsonArrBody xs ++ [']']
  | .jobj kvs => '\x7b' :: jsonObjBody kvs ++ ['\x7d']

def jsonArrBody : List JVal → List Char
  | [] => []
  | [x] => jsonStringify x
  | x :: y :: xs => jsonStringify x ++ ',' :: jsonArrBody (y :: xs)

def jsonObjBody : List (String × JVal) → List Char
  | [] => []
  | [(k, v)] => jsonStr k ++ ':' :: jsonStringify v
  | (k, v) :: p :: kvs =>
    jsonStr k ++ ':' :: jsonStringify v ++ ',' :: jsonObjBody (p :: kvs)

end

/-- Strict equality of a property against a number, `x.f === n`. -/
def isNumVal (f : Option JVal) (n : Int) : Bool :=
  match f with
  | some (.jnum m) => m == n
  | _ => false

/-- Strict equality of a property against a string, `x.f === "s"`. -/
def isStrVal (f : Option JVal) (s : String) : Bool :=
  match f with
  | some (.jstr t) => t == s
  | _ => false

/-- The shape check of `parseEvent`: `parsed.v === 1 && parsed.type &&
parsed.ts && parsed.session_id`. -/
def parseEventVal (j : JVal) : Option JVal :=
  if isNumVal (getField j "v") 1 && truthy (getField j "type")
      && truthy (getField j "ts") && truthy (getField j "session_id")
  then some j else none

/-! `validateEvent`, returning the list of error field names (`valid`
is emptiness of this list). -/

def validTypes : List String :=
  ["session", "file_touch", "tool_call", "unknown", "agent_state"]

def vErrs (j : JVal) : List String :=
  match getField j "v" with
  | none => ["v"]
  | some .jnull => ["v"]
  | some (.jnum n) => if n = 1 then [] else ["v"]
  | some _ => ["v"]

def tsErrs (now : Int) (j : JVal) : List String :=
  match getField j "ts" with
  | none => ["ts"]
  | some .jnull => ["ts"]
  | some (.jnum n) =>
    if n < 0 then ["ts"]
    else if now + 60 < n then ["ts"]
    else []
  | some _ => ["ts"]

def typeErrs (j : JVal) : List String :=
  if truthy (getField j "type") = false then ["type"]
  else
    match getField j "type" with
    | some (.jstr t) => if t ∈ validTypes then [] else ["type"]
    | _ => ["type"]

def sidErrs (j : JVal) : List String :=
  if truthy (getField j "session_id") = false then ["session_id"]
  else
    match getField j "session_id" with
    | some (.jstr s) =>
      if 256 < s.length then ["session_id"]
      else if s.length = 0 then ["session_id"]
      else []
    | _ => ["session_id"]

/-- Checks of the shape `if (x !== undefined && x !== null) { string of
bounded length }` shared by `command`, `repo_root`, `reason` and
`hook_event_name`. -/
def optStrErrs (name : String) (maxLen : Nat) (f : Option JVal) :
    List String :=
  match f with
  | none => []
  | some .jnull => []
  | some (.jstr s) => if maxLen < s.length then [name] else []
  | some _ => [name]

def pathErrs (j : JVal) : List String :=
  if truthy (getField j "path") = false then ["path"]
  else
    match getField j "path" with
    | some (.jstr p) => if 4096 < p.length then ["path"] else []
    | _ => ["path"]

def kindErrs (j : JVal) : List String :=
  if isStrVal (getField j "kind") "read"
      || isStrVal (getField j "kind") "write" then []
  else ["kind"]

def toolErrs (j : JVal) : List String :=
  if truthy (getField j "tool") = false then ["tool"]
  else
    match getField j "tool" with
    | some (.jstr t) => if 256 < t.length then ["tool"] else []
    | _ => ["tool"]

def phaseErrs (j : JVal) : List String :=
  if isStrVal (getField j "phase") "start"
      || isStrVal (getField j "phase") "end" then []
  else ["phase"]

def validStates : List String := ["start", "stop", "interrupt", "crash"]

def stateErrs (j : JVal) : List String :=
  if truthy (getField j "state") = false then ["state"]
  else
    match getField j "state" with
    | some (.jstr st) => if st ∈ validStates then [] else ["state"]
    | _ => ["state"]

def agentStateErrs (j : JVal) : List String :=
  if isStrVal (getField j "state") "thinking"
      || isStrVal (getField j "state") "responding" then []
  else ["state"]

/-- The metadata check — performed only in the `agent_state` branch of
`validateEvent`. -/
def metadataErrs (j : JVal) : List String :=
  match getField j "metadata" with
  | none => []
  | some .jnull => []
  | some (.jobj kvs) =>
    if 10000 < (jsonStringify (.jobj kvs)).length then ["metadata"]
    else []
  | some _ => ["metadata"]

def keyTypeErrs (i : Nat) : List JVal → List String
  | [] => []
  | .jstr _ :: rest => keyTypeErrs (i + 1) rest
  | _ :: rest =>
    ("payload_keys[" ++ toString i ++ "]") :: keyTypeErrs (i + 1) rest

def payloadKeysErrs (j : JVal) : List String :=
  match getField j "payload_keys" with
  | some (.jarr xs) =>
    (if 100 < xs.length then ["payload_keys"] else []) ++ keyTypeErrs 0 xs
  | _ => ["payload_keys"]

def variantErrs (j : JVal) : List String :=
  if isStrVal (getField j "type") "file_touch" then
    pathErrs j ++ kindErrs j
  else if isStrVal (getField j "type") "tool_call" then
    toolErrs j ++ phaseErrs j
      ++ optStrErrs "command" 8192 (getField j "command")
  else if isStrVal (getField j "type") "session" then
    stateErrs j ++ optStrErrs "repo_root" 4096 (getField j "repo_root")
  else if isStrVal (getField j "type") "agent_state" then
    agentStateErrs j ++ metadataErrs j
  else if isStrVal (getField j "type") "unknown" then
    payloadKeysErrs j ++ optStrErrs "reason" 512 (getField j "reason")
      ++ optStrErrs "hook_event_name" 256 (getField j "hook_event_name")
  else []

/-- `validateEvent`, with `now` the value of `Date.now() / 1000`.  The
early return fires on falsy values and non-objects (`typeof` of an array
is also `'object'`, so arrays pass it and fail the field checks). -/
def validateEvent (now : Int) (j : JVal) : List String :=
  match j with
  | .jobj _ =>
    vErrs j ++ tsErrs now j ++ typeErrs j ++ sidErrs j ++ variantErrs j
  | .jarr _ =>
    vErrs j ++ tsErrs now j ++ typeErrs j ++ sidErrs j ++ variantErrs j
  | _ => ["event"]

theorem validateEvent_obj (now : Int) (kvs : List (String × JVal)) :
    validateEvent now (.jobj kvs)
      = vErrs (.jobj kvs) ++ tsErrs now (.jobj kvs)
        ++ typeErrs (.jobj kvs) ++ sidErrs (.jobj kvs)
        ++ variantErrs (.jobj kvs) := rfl

theorem validateEvent_arr (now : Int) (xs : List JVal) :
    validateEvent now (.jarr xs)
      = vErrs (.jarr xs) ++ tsErrs now (.jarr xs)
        ++ typeErrs (.jarr xs) ++ sidErrs (.jarr xs)
        ++ variantErrs (.jarr xs) := rfl

theorem isNumVal_iff (f : Option JVal) (n : Int) :
    isNumVal f n = true ↔ f = some (.jnum n) := by
  cases f with
  | none => simp [isNumVal]
  | some x => cases x <;> simp [isNumVal]

theorem vErrs_nil (j : JVal) (h : vErrs j = []) :
    getField j "v" = some (.jnum 1) := by
  unfold vErrs at h
  cases hf : getField j "v" with
  | none => rw [hf] at h; cases h
  | some x =>
    rw [hf] at h
    cases x with
    | jnum n =>
      have h' : (if n = (1 : Int) then ([] : List String) else ["v"])
          = [] := h
      by_cases h1 : n = 1
      · rw [h1]
      · rw [if_neg h1] at h'; cases h'
    | jnull => cases h
    | jbool b => cases h
    | jstr s => cases h
    | jarr xs => cases h
    | jobj kvs => cases h

theorem typeErrs_nil (j : JVal) (h : typeErrs j = []) :
    truthy (getField j "type") = true := by
  unfold typeErrs at h
  cases ht : truthy (getField j "type") with
  | false => rw [if_pos ht] at h; cases h
  | true => rfl

theorem sidErrs_nil (j : JVal) (h : sidErrs j = []) :
    truthy (getField j "session_id") = true := by
  unfold sidErrs at h
  cases ht : truthy (getField j "session_id") with
  | false => rw [if_pos ht] at h; cases h
  | true => rfl

/-- An event that validates (`ts = 0` is accepted by the timestamp
check) but whose serialize-then-parse pipeline drops it: the truthiness
check `parsed.ts` fails on the number `0`. -/
def c8Demo : JVal :=
  .jobj [("v", .jnum 1), ("ts", .jnum 0), ("type", .jstr "file_touch"),
         ("session_id", .jstr "s1"), ("path", .jstr "a.txt"),
         ("kind", .jstr "read")]

/-- C8 (counterexample): a validated event with `ts = 0` does not round
trip — `parseEvent` rejects the serialized line, returning `null`
instead of the original event. -/
theorem c8_roundtrip_counterexample :
    validateEvent 100 c8Demo = [] ∧
    truthy (getField c8Demo "ts") = false ∧
    parseEventVal c8Demo = none :=
  ⟨by decide, by decide, rfl⟩

/-- C8 (amended): serialize-then-parse returns any validated event
unchanged, provided its timestamp is truthy (nonzero) — the condition
the original claim is missing. -/
theorem c8_amended_roundtrip (now : Int) (j : JVal)
    (hv : validateEvent now j = [])
    (hts : truthy (getField j "ts") = true) :
    parseEventVal j = some j := by
  have hcore : vErrs j = [] ∧ typeErrs j = [] ∧ sidErrs j = [] := by
    cases j with
    | jobj kvs =>
      rw [validateEvent_obj] at hv
      simp only [List.append_eq_nil] at hv
      exact ⟨hv.1.1.1.1, hv.1.1.2, hv.1.2⟩
    | jarr xs =>
      rw [validateEvent_arr] at hv
      simp only [List.append_eq_nil] at hv
      exact ⟨hv.1.1.1.1, hv.1.1.2, hv.1.2⟩
    | jnull => simp [validateEvent] at hv
    | jbool b => simp [validateEvent] at hv
    | jnum n => simp [validateEvent] at hv
    | jstr s => simp [validateEvent] at hv
  obtain ⟨h1, h3, h4⟩ := hcore
  have hv1 := (isNumVal_iff (getField j "v") 1).mpr (vErrs_nil j h1)
  have hty := typeErrs_nil j h3
  have hsid := sidErrs_nil j h4
  unfold parseEventVal
  rw [hv1, hty, hts, hsid]
  rfl

def c8WitEvent : JVal :=
  .jobj [("v", .jnum 1), ("ts", .jnum 5), ("type", .jstr "file_touch"),
         ("session_id", .jstr "s1"), ("path", .jstr "a.txt"),
         ("kind", .jstr "read")]

theorem c8_amended_roundtrip_witness :
    validateEvent 100 c8WitEvent = [] ∧
    truthy (getField c8WitEvent "ts") = true ∧
    parseEventVal c8WitEvent = some c8WitEvent :=
  ⟨by decide, by decide,
    c8_amended_roundtrip 100 c8WitEvent (by decide) (by decide)⟩

def c9BigStr : String := String.mk (List.replicate 10000 'a')

def c9Meta : JVal := .jobj [("k", .jstr c9BigStr)]

/-- An `unknown`-type event carrying a metadata object whose serialized
form exceeds the 10,000-byte bound. -/
def c9Demo : JVal :=
  .jobj [("v", .jnum 1), ("ts", .jnum 5), ("type", .jstr "unknown"),
         ("session_id", .jstr "s1"), ("payload_keys", .jarr []),
         ("metadata", c9Meta)]

theorem escRepl (n : Nat) :
    (List.replicate n 'a').flatMap jsonEscape = List.replicate n 'a' := by
  induction n with
  | zero => rfl
  | succ n ih =>
    rw [List.replicate_succ, List.flatMap_cons, ih]
    rfl

theorem c9_size : 10000 < (jsonStringify c9Meta).length := by
  have h1 := escRepl 10000
  have h2 : jsonStringify c9Meta
      = '\x7b' :: (jsonStr "k" ++ ':' :: jsonStr c9BigStr) ++ ['\x7d'] :=
    rfl
  have h3 : jsonStr c9BigStr
      = '"' :: List.replicate 10000 'a' ++ ['"'] := by
    show '"' :: c9BigStr.toList.flatMap jsonEscape ++ ['"'] = _
    rw [show c9BigStr.toList = List.replicate 10000 'a' from rfl, h1]
  rw [h2, h3, show jsonStr "k" = ['"', 'k', '"'] from rfl]
  simp only [List.length_append, List.length_cons, List.length_replicate,
    List.length_nil]
  omega

/-- C9 (counterexample): the metadata size bound is enforced only in the
`agent_state` branch — an `unknown`-type event with an oversize metadata
object passes validation with no errors. -/
theorem c9_metadata_counterexample :
    10000 < (jsonStringify c9Meta).length ∧
    getField c9Demo "metadata" = some c9Meta ∧
    isStrVal (getField c9Demo "type") "unknown" = true ∧
    validateEvent 100 c9Demo = [] :=
  ⟨c9_size, rfl, rfl, by decide⟩

/-- C9 (amended): for `agent_state` events — the one variant whose
branch performs the check — a present non-null metadata value is
rejected when it is not an object, and rejected when its serialized
form exceeds 10,000 bytes. -/
theorem c9_amended_metadata (now : Int) (j : JVal) (m : JVal)
    (hty : getField j "type" = some (.jstr "agent_state"))
    (hm : getField j "metadata" = some m) (hnn : m ≠ .jnull) :
    ((∀ kvs, m ≠ .jobj kvs) → "metadata" ∈ validateEvent now j) ∧
    (10000 < (jsonStringify m).length →
      "metadata" ∈ validateEvent now j) := by
  have hobj : ∃ kvs0, j = .jobj kvs0 := by
    cases j with
    | jobj kvs0 => exact ⟨kvs0, rfl⟩
    | jnull => cases hty
    | jbool b => cases hty
    | jnum n => cases hty
    | jstr s => cases hty
    | jarr xs => cases hty
  obtain ⟨kvs0, rfl⟩ := hobj
  have hmem : "metadata" ∈ metadataErrs (JVal.jobj kvs0) →
      "metadata" ∈ validateEvent now (JVal.jobj kvs0) := by
    intro hmm
    rw [validateEvent_obj]
    refine List.mem_append_right _ ?_
    unfold variantErrs
    rw [hty]
    simp only [isStrVal]
    simp only [show (("agent_state" == "file_touch") : Bool) = false from
        rfl,
      show (("agent_state" == "tool_call") : Bool) = false from rfl,
      show (("agent_state" == "session") : Bool) = false from rfl,
      show (("agent_state" == "agent_state") : Bool) = true from rfl,
      if_false, if_true, Bool.false_eq_true]
    exact List.mem_append_right _ hmm
  refine ⟨fun hno => hmem ?_, fun hbig => hmem ?_⟩
  · unfold metadataErrs
    rw [hm]
    cases m with
    | jobj kvs => exact absurd rfl (hno kvs)
    | jnull => exact absurd rfl hnn
    | jbool b => exact List.mem_singleton.mpr rfl
    | jnum n => exact List.mem_singleton.mpr rfl
    | jstr s => exact List.mem_singleton.mpr rfl
    | jarr xs => exact List.mem_singleton.mpr rfl
  · unfold metadataErrs
    rw [hm]
    cases m with
    | jobj kvs =>
      show "metadata" ∈ (if 10000 < (jsonStringify (JVal.jobj kvs)).length
          then ["metadata"] else [])
      rw [if_pos hbig]
      exact List.mem_singleton.mpr rfl
    | jnull => exact absurd rfl hnn
    | jbool b => exact List.mem_singleton.mpr rfl
    | jnum n => exact List.mem_singleton.mpr rfl
    | jstr s => exact List.mem_singleton.mpr rfl
    | jarr xs => exact List.mem_singleton.mpr rfl

def c9WitEvent : JVal :=
  .jobj [("v", .jnum 1), ("ts", .jnum 5), ("type", .jstr "agent_state"),
         ("session_id", .jstr "s1"), ("state", .jstr "thinking"),
         ("metadata", .jarr [])]

theorem c9_amended_metadata_witness :
    getField c9WitEvent "type" = some (.jstr "agent_state") ∧
    getField c9WitEvent "metadata" = some (.jarr []) ∧
    "metadata" ∈ validateEvent 100 c9WitEvent :=
  ⟨rfl, rfl,
    (c9_amended_metadata 100 c9WitEvent (.jarr []) rfl rfl
      (fun h => JVal.noConfusion h)).1
      (fun kvs h => JVal.noConfusion h)⟩

/-- A line with an unrecognized type string: `parseEvent` accepts it,
validation rejects it. -/
def e10Bad : JVal :=
  .jobj [("v", .jnum 1), ("ts", .jnum 5), ("type", .jstr "bogus"),
         ("session_id", .jstr "s1")]

/-- A line whose `session_id` has 300 characters, over the 256 bound:
`parseEvent` accepts it, validation rejects it. -/
def e10Long : JVal :=
  .jobj [("v", .jnum 1), ("ts", .jnum 5), ("type", .jstr "file_touch"),
         ("session_id", .jstr (String.mk (List.replicate 300 's'))),
         ("path", .jstr "a"), ("kind", .jstr "read")]

/-- A validated event with `ts = 0`: `parseEvent` rejects it. -/
def e10Ts : JVal :=
  .jobj [("v", .jnum 1), ("ts", .jnum 0), ("type", .jstr "unknown"),
         ("session_id", .jstr "s1"), ("payload_keys", .jarr [])]

/-- C10: `parseEvent` accepts exactly the objects with `v === 1` and
truthy `type`, `ts` and `session_id`, enforcing none of validation's
enum or length bounds: an unrecognized type string and an oversize
`session_id` are accepted though validation rejects them, while a
validated event with `ts = 0` is rejected. -/
theorem c10_parse_vs_validation :
    (∀ j : JVal, parseEventVal j = some j ↔
      (getField j "v" = some (.jnum 1)
        ∧ truthy (getField j "type") = true
        ∧ truthy (getField j "ts") = true
        ∧ truthy (getField j "session_id") = true)) ∧
    (parseEventVal e10Bad = some e10Bad ∧ validateEvent 100 e10Bad ≠ []) ∧
    (parseEventVal e10Long = some e10Long
      ∧ validateEvent 100 e10Long ≠ []) ∧
    (validateEvent 100 e10Ts = [] ∧ parseEventVal e10Ts = none) := by
  refine ⟨?_, ⟨rfl, by decide⟩, ⟨rfl, by decide⟩, ⟨by decide, rfl⟩⟩
  intro j
  unfold parseEventVal
  constructor
  · intro h
    cases hc : (isNumVal (getField j "v") 1 && truthy (getField j "type")
        && truthy (getField j "ts")
        && truthy (getField j "session_id")) with
    | false =>
      rw [hc] at h
      exact Option.noConfusion h
    | true =>
      have h4 := hc
      simp only [Bool.and_eq_true] at h4
      exact ⟨(isNumVal_iff _ 1).mp h4.1.1.1, h4.1.1.2, h4.1.2, h4.2⟩
  · intro hcon
    obtain ⟨ha, hb, hcc, hd⟩ := hcon
    have hc : (isNumVal (getField j "v") 1 && truthy (getField j "type")
        && truthy (getField j "ts")
        && truthy (getField j "session_id")) = true := by
      simp only [Bool.and_eq_true]
      exact ⟨⟨⟨(isNumVal_iff _ 1).mpr ha, hb⟩, hcc⟩, hd⟩
    rw [hc]
    rfl

end IdleHands

